import Mathlib

/-!
# Verification development for the WinRM command engine

Shallow embedding of `command.go` and `response.go`:

* Go `[]byte` and Go `string` contents are lists of byte values (`Nat`, each below 256).
* Go `int` is `Int`; the only arithmetic that can overflow (`EnvelopeSize-1000`) wraps
  explicitly to 64 bits.
* The transport (`Client.sendRequest`) is an oracle giving the outcome of the n-th request
  of each kind; every request actually issued is counted or logged.
* Loops that need not terminate carry fuel.
-/

namespace Winrm

/-! ## Basic data -/

/-- One Go byte, kept as a natural number. -/
abbrev Byte := Nat

/-- Contents of a Go string or byte slice. -/
abbrev Bytes := List Byte

/-- ASCII literal as bytes. -/
def ascii (s : String) : Bytes := s.toList.map Char.toNat

/-- Go error values that the engine creates or receives. Identity matters (`io.ErrClosedPipe`
and `io.ErrShortWrite` are sentinels), so they are separate constructors. -/
inductive GoError where
  | ErrClosedPipe
  | ErrShortWrite
  | canceled
  | commandClosed
  | noShell
  | noClient
  | ctx (msg : Bytes)
  | transport (msg : Bytes)
  | xml (msg : Bytes)
  | syntaxErr
  | rangeErr
  | corruptInput
  deriving DecidableEq, Repr

/-- The text of `err.Error()`. -/
def GoError.Error : GoError → Bytes
  | .ErrClosedPipe => ascii "io: read/write on closed pipe"
  | .ErrShortWrite => ascii "short write"
  | .canceled => ascii "canceled"
  | .commandClosed => ascii "Command has already been closed"
  | .noShell => ascii "Command has no associated shell"
  | .noClient => ascii "Command has no associated client"
  | .ctx msg => msg
  | .transport msg => msg
  | .xml msg => msg
  | .syntaxErr => ascii "invalid syntax"
  | .rangeErr => ascii "value out of range"
  | .corruptInput => ascii "illegal base64 data"

/-- How a call ends: it returns a value, it panics, or the fuel given to a loop runs out before
the loop ends. The state reached is always reported next to the outcome. -/
inductive Outcome (α : Type) where
  | ret (a : α)
  | panicked
  | outOfFuel
  deriving DecidableEq, Repr

/-- Two's complement wrap of a Go `int` (64 bits). -/
def wrapInt64 (x : Int) : Int := (x + 2 ^ 63) % 2 ^ 64 - 2 ^ 63

/-- Go `strings.Contains(s, sub)`. -/
def Contains : Bytes → Bytes → Bool
  | [], sub => sub.isEmpty
  | c :: cs, sub => sub.isPrefixOf (c :: cs) || Contains cs sub

/-! ## Command state -/

/-- Modelled from the spec: the `Parameters` type is declared outside the given sources; the
engine reads only its maximum envelope size, a Go `int`. -/
structure Parameters where
  EnvelopeSize : Int
  deriving DecidableEq, Repr

/-- Modelled from the spec: the `Client` type is declared outside the given sources; it is the
transport handle with its protocol parameters (its `sendRequest` is the oracle of `Env`). -/
structure Client where
  Parameters : Parameters
  deriving DecidableEq, Repr

/-- Go `Shell`: the remote shell identifier (the client pointer is kept in `Command`). -/
structure Shell where
  id : Bytes
  deriving DecidableEq, Repr

/-- Write end of an `io.Pipe` whose read end is being drained: `data` is everything handed to
the reader so far, `closed` is `none` while open and `some e` once closed, `e` being the error
of the first close (`none` for a clean close, seen by the reader as end of stream). -/
structure PipeWriter where
  data : Bytes
  closed : Option (Option GoError)
  deriving DecidableEq, Repr

/-- Go `PipeWriter.Write`: refused once closed, otherwise handed to the reader. -/
def PipeWriter.Write (p : PipeWriter) (b : Bytes) : PipeWriter :=
  match p.closed with
  | some _ => p
  | none => { p with data := p.data ++ b }

/-- Go `PipeWriter.CloseWithError`: the first close wins, later ones change nothing. -/
def PipeWriter.CloseWithError (p : PipeWriter) (e : Option GoError) : PipeWriter :=
  match p.closed with
  | some _ => p
  | none => { p with closed := some e }

/-- Go `PipeWriter.Close`. -/
def PipeWriter.Close (p : PipeWriter) : PipeWriter := p.CloseWithError none

/-- One `send input` request as it reaches the transport. -/
structure SendInput where
  data : Bytes
  eof : Bool
  deriving DecidableEq, Repr

/-- The command together with the record of requests issued on its behalf. The fields
`client` .. `cancel` are those of `Command` (`stdinEof` is `Stdin.eof`, `Stdout`/`Stderr` are
the write ends of the two output pipes, `done`/`cancel` say whether the channel is closed);
`inputs` logs the send-input requests in call order, `polls` and `signals` count the
get-output and signal requests. -/
structure Command where
  client : Option Client
  shell : Option Shell
  id : Bytes
  exitCode : Int
  err : Option GoError
  stdinEof : Bool
  Stdout : PipeWriter
  Stderr : PipeWriter
  done : Bool
  cancel : Bool
  inputs : List SendInput
  polls : Nat
  signals : Nat
  deriving DecidableEq, Repr

/-- Go `newCommand`. -/
def newCommand (shell : Shell) (client : Option Client) (ids : Bytes) : Command :=
  { client := client, shell := some shell, id := ids, exitCode := 0, err := none,
    stdinEof := false, Stdout := ⟨[], none⟩, Stderr := ⟨[], none⟩,
    done := false, cancel := false, inputs := [], polls := 0, signals := 0 }

/-- Go `Command.check`. -/
def Command.check (c : Command) : Option GoError :=
  if c.id = [] then some .commandClosed
  else if c.shell.isNone then some .noShell
  else if c.client.isNone then some .noClient
  else none

/-- The command after further send-input requests have been logged. -/
def Command.logInputs (c : Command) (l : List SendInput) : Command :=
  { c with inputs := c.inputs ++ l }

/-- Go `Command.sendInput`: after `check`, one request goes to the transport; `tr n` is the
error (if any) with which the n-th send-input request of this command is answered. -/
def Command.sendInput (tr : Nat → Option GoError) (c : Command) (data : Bytes) (eof : Bool) :
    Command × Option GoError :=
  match c.check with
  | some e => (c, some e)
  | none => ({ c with inputs := c.inputs ++ [⟨data, eof⟩] }, tr c.inputs.length)

/-- Go `min`. -/
def min (a : Int) (b : Int) : Int := if a < b then a else b

/-! ## Stdin delivery -/

namespace commandWriter

/-- The `for len(data) > 0` loop of `Write`, one unit of fuel per test of the loop condition.
Returns the state and `written`. The `err` assigned by `if err := w.sendInput(..)` is local to
the `if` statement, so nothing but `break` leaves the loop body on failure. A negative `n` makes
`data[:n]` panic, and so does reading `w.client.Parameters` through a nil client. `written`
stays within `len(data)`, so its additions do not overflow. -/
def writeLoop (tr : Nat → Option GoError) : Nat → Command → Bytes → Int → Command × Outcome Int
  | 0, c, _, _ => (c, .outOfFuel)
  | fuel + 1, c, data, written =>
    if data.length > 0 then
      match c.client with
      | none => (c, .panicked)
      | some cl =>
        let n := min (wrapInt64 (cl.Parameters.EnvelopeSize - 1000)) data.length
        if n < 0 then (c, .panicked)
        else
          match c.sendInput tr (data.take n.toNat) false with
          | (c1, some _) => (c1, .ret written)
          | (c1, none) => writeLoop tr fuel c1 (data.drop n.toNat) (written + n)
    else (c, .ret written)

/-- Go `commandWriter.Write`. The outer `err` is still nil after the loop (see `writeLoop`), so
the final test reduces to `written < origLen`. -/
def Write (tr : Nat → Option GoError) (fuel : Nat) (c : Command) (data : Bytes) :
    Command × Outcome (Int × Option GoError) :=
  if c.stdinEof then (c, .ret (0, some .ErrClosedPipe))
  else
    let err : Option GoError := none
    let origLen : Int := data.length
    match writeLoop tr fuel c data 0 with
    | (c1, .panicked) => (c1, .panicked)
    | (c1, .outOfFuel) => (c1, .outOfFuel)
    | (c1, .ret written) =>
      let err := if err = none ∧ written < origLen then some GoError.ErrShortWrite else err
      (c1, .ret (written, err))

/-- Go `commandWriter.WriteClose`. -/
def WriteClose (tr : Nat → Option GoError) (fuel : Nat) (c : Command) (data : Bytes) :
    Command × Outcome (Int × Option GoError) :=
  Write tr fuel { c with stdinEof := true } data

/-- Go `commandWriter.Close`. -/
def Close (tr : Nat → Option GoError) (c : Command) : Command × Option GoError :=
  if c.stdinEof then (c, some .ErrClosedPipe)
  else
    let c1 := { c with stdinEof := true }
    c1.sendInput tr [] c1.stdinEof

end commandWriter

/-! ## Library functions used by the response parser

These model the Go standard library (`strings`, `strconv`, `encoding/base64`), which is not part
of the repository; they follow the documented behaviour of those packages. -/

/-- The scan of `strings.ReplaceAll`: `skip` bytes of a match just replaced are still to be
passed over. Matches are taken leftmost first and do not overlap. -/
def replaceFrom (old new : Bytes) : Nat → Bytes → Bytes
  | _, [] => []
  | skip + 1, _ :: cs => replaceFrom old new skip cs
  | 0, c :: cs =>
    if old.isPrefixOf (c :: cs) then new ++ replaceFrom old new (old.length - 1) cs
    else c :: replaceFrom old new 0 cs

/-- Go `strings.ReplaceAll(s, old, new)` for a non-empty `old`. -/
def ReplaceAll (s old new : Bytes) : Bytes := replaceFrom old new 0 s

/-- Largest value of a Go `uint64`. -/
def maxUint64 : Nat := 18446744073709551615

/-- The digit loop of `strconv.ParseUint` for base 10 and 64 bits, `n` being the value read
so far. A byte that is not a decimal digit is a syntax error; the range result is returned
as soon as the digits read overflow 64 bits, before any later byte is looked at. -/
def parseUintLoop : Bytes → Nat → Nat × Option GoError
  | [], n => (n, none)
  | c :: cs, n =>
    if 48 ≤ c ∧ c ≤ 57 then
      let d := c - 48
      if n ≥ maxUint64 / 10 + 1 then (maxUint64, some .rangeErr)
      else
        let n := n * 10
        let n1 := (n + d) % 2 ^ 64
        if n1 < n ∨ n1 > maxUint64 then (maxUint64, some .rangeErr)
        else parseUintLoop cs n1
    else (0, some .syntaxErr)

/-- Go `strconv.ParseUint(s, 10, 0)` on a 64-bit platform. -/
def ParseUint (s : Bytes) : Nat × Option GoError :=
  if s = [] then (0, some .syntaxErr) else parseUintLoop s 0

/-- Go `strconv.ParseInt(s, 10, 0)` on a 64-bit platform: a leading sign is picked off, a
syntax error of `ParseUint` gives 0, and a value that does not fit (also the range result
of `ParseUint`) gives the bound of its sign with a range error. -/
def ParseInt (s : Bytes) : Int × Option GoError :=
  match s with
  | [] => (0, some .syntaxErr)
  | c :: rest =>
    let neg := c = 45
    let s := if c = 43 ∨ c = 45 then rest else c :: rest
    match ParseUint s with
    | (un, err) =>
      if err ≠ none ∧ err ≠ some .rangeErr then (0, err)
      else if ¬ neg ∧ un ≥ 2 ^ 63 then (2 ^ 63 - 1, some .rangeErr)
      else if neg ∧ un > 2 ^ 63 then (-(2 ^ 63), some .rangeErr)
      else (if neg then -(un : Int) else (un : Int), none)

/-- The digit loop of the fast path of `strconv.Atoi` (`ch -= '0'; if ch > 9` on a byte holds
exactly when the byte is not a decimal digit). -/
def atoiFast : Bytes → Nat → Option Nat
  | [], n => some n
  | ch :: cs, n => if 48 ≤ ch ∧ ch ≤ 57 then atoiFast cs (n * 10 + (ch - 48)) else none

/-- Go `strconv.Atoi` on a 64-bit platform: texts of 1 to 18 bytes take the fast path, which
cannot overflow; all others go through `ParseInt`. -/
def Atoi (s : Bytes) : Int × Option GoError :=
  if 0 < s.length ∧ s.length < 19 then
    match s with
    | [] => (0, some .syntaxErr)
    | c :: rest =>
      let body := if c = 45 ∨ c = 43 then rest else c :: rest
      if (c = 45 ∨ c = 43) ∧ body.length < 1 then (0, some .syntaxErr)
      else
        match atoiFast body 0 with
        | none => (0, some .syntaxErr)
        | some n => (if c = 45 then -(n : Int) else (n : Int), none)
  else ParseInt s

/-- The standard base64 alphabet (`encoding/base64`, `decodeMap` of `StdEncoding`). -/
def decodeMap (c : Byte) : Option Nat :=
  if 65 ≤ c ∧ c ≤ 90 then some (c - 65)
  else if 97 ≤ c ∧ c ≤ 122 then some (c - 97 + 26)
  else if 48 ≤ c ∧ c ≤ 57 then some (c - 48 + 52)
  else if c = 43 then some 62
  else if c = 47 then some 63
  else none

/-- Skips `\r` and `\n`, as the decoder does around padding. -/
def skipNewlines : Bytes → Bytes
  | [] => []
  | c :: cs => if c = 10 ∨ c = 13 then skipNewlines cs else c :: cs

/-- The three bytes of a quantum of up to four 6-bit values (missing values are zero). -/
def quantumBytes (dbuf : List Nat) : Bytes :=
  let val := dbuf.getD 0 0 * 2 ^ 18 + dbuf.getD 1 0 * 2 ^ 12 + dbuf.getD 2 0 * 2 ^ 6 + dbuf.getD 3 0
  [val / 2 ^ 16 % 256, val / 2 ^ 8 % 256, val % 256]

/-- The decoding loop of `encoding/base64` (`Decode` over `decodeQuantum`) for the padded,
non-strict standard encoding: `dbuf` holds the values of the quantum being read, `out` the bytes
decoded so far. On corrupt input the bytes decoded before the error are still returned. -/
def decodeFrom : Bytes → List Nat → Bytes → Bytes × Option GoError
  | [], dbuf, out => if dbuf = [] then (out, none) else (out, some .corruptInput)
  | c :: rest, dbuf, out =>
    match decodeMap c with
    | some v =>
      if dbuf.length = 3 then decodeFrom rest [] (out ++ quantumBytes (dbuf ++ [v]))
      else decodeFrom rest (dbuf ++ [v]) out
    | none =>
      if c = 10 ∨ c = 13 then decodeFrom rest dbuf out
      else if c ≠ 61 then (out, some .corruptInput)
      else
        match dbuf.length with
        | 0 => (out, some .corruptInput)
        | 1 => (out, some .corruptInput)
        | 2 =>
          match skipNewlines rest with
          | [] => (out, some .corruptInput)
          | d :: rest2 =>
            if d ≠ 61 then (out, some .corruptInput)
            else (out ++ (quantumBytes dbuf).take 1,
                  if skipNewlines rest2 = [] then none else some .corruptInput)
        | _ => (out ++ (quantumBytes dbuf).take 2,
                if skipNewlines rest = [] then none else some .corruptInput)

/-- Go `base64.StdEncoding.DecodeString`. -/
def DecodeString (s : Bytes) : Bytes × Option GoError := decodeFrom s [] []

/-! ## Parsed XML documents

`xmltree.ParseXML` and the `goxpath` evaluator are external libraries. The document tree they
produce is modelled directly; the parser itself is a parameter of the functions that call it. -/

/-- An attribute: namespace URI (empty when unqualified), local name, value. -/
structure Attr where
  space : String
  loc : String
  value : Bytes
  deriving DecidableEq, Repr

/-- A node below the document root. -/
inductive Node where
  | elem (space loc : String) (attrs : List Attr) (children : List Node)
  | text (s : Bytes)
  | comment (s : Bytes)
  | procInst (target : String) (s : Bytes)
  deriving Repr

/-- The document root (`tree.NtRoot`) with its children. -/
structure Doc where
  children : List Node
  deriving Repr

/-- What `xmltree.ParseXML` returns: either a tree, complete or as far as it was built when
an error stopped the parse, or no tree at all (nil) together with the error. -/
inductive Parsed where
  | tree (doc : Doc) (err : Option GoError)
  | failed (err : GoError)

/-- The error returned by the parse. -/
def Parsed.err : Parsed → Option GoError
  | .tree _ err => err
  | .failed err => some err

/-- The tree returned by the parse; the empty document stands in when there is none. -/
def Parsed.doc : Parsed → Doc
  | .tree doc _ => doc
  | .failed _ => ⟨[]⟩

mutual
/-- Go `ResValue`: the string value of a node; for an element, the values of its text and
element children in order (comments and processing instructions do not contribute). -/
def Node.ResValue : Node → Bytes
  | .elem _ _ _ cs => resValues cs
  | .text s => s
  | .comment s => s
  | .procInst _ s => s
/-- String values of the text and element nodes of a child list, concatenated. -/
def resValues : List Node → Bytes
  | [] => []
  | .elem s l a cs :: rest => (Node.elem s l a cs).ResValue ++ resValues rest
  | .text s :: rest => s ++ resValues rest
  | _ :: rest => resValues rest
end

mutual
/-- The elements of a subtree in document order (an element comes before its descendants). -/
def Node.elements : Node → List Node
  | .elem s l a cs => .elem s l a cs :: elementsOf cs
  | _ => []
/-- The elements below a child list in document order. -/
def elementsOf : List Node → List Node
  | [] => []
  | n :: rest => n.elements ++ elementsOf rest
end

/-- Namespace URI bound to prefix `rsp` (`soap.NS_WIN_SHELL`). -/
def NS_WIN_SHELL : String := "http://schemas.microsoft.com/wbem/wsman/1/windows/shell"

/-- Namespace URI bound to prefix `ps` (`soap.NS_POWERSHELL`). -/
def NS_POWERSHELL : String := "http://schemas.microsoft.com/powershell/2004/04"

/-- The value the `State` attribute has on completion. -/
def doneState : Bytes :=
  ascii "http://schemas.microsoft.com/wbem/wsman/1/windows/shell/CommandState/Done"

/-- The XPath expressions that `response.go` evaluates. -/
inductive Query where
  /-- The query `//rsp:Stream[@Name='<name>']`. -/
  | stream (name : Bytes)
  /-- The query `//*[@State='<Done URI>']`. -/
  | done
  /-- The query `//rsp:ExitCode`. -/
  | exitCode
  /-- The query `.//ps:S`. -/
  | psS

/-- An element has an unqualified attribute `loc` with the given value. -/
def Node.hasAttr (loc : String) (value : Bytes) : Node → Bool
  | .elem _ _ attrs _ => attrs.any (fun a => a.space = "" ∧ a.loc = loc ∧ a.value = value)
  | _ => false

/-- An element has the given expanded name. -/
def Node.named (space loc : String) : Node → Bool
  | .elem s l _ _ => s = space ∧ l = loc
  | _ => false

/-- Whether an element is selected by a query (name test and predicate). -/
def Query.selects : Query → Node → Bool
  | .stream name, n => n.named NS_WIN_SHELL "Stream" && n.hasAttr "Name" name
  | .done, n => n.hasAttr "State" doneState
  | .exitCode, n => n.named NS_WIN_SHELL "ExitCode"
  | .psS, n => n.named NS_POWERSHELL "S"

/-- Go `xPath` on the document root: every query used here descends from the root through all
levels, so it yields the selected elements of the document, in document order (the evaluator
sorts its node sets by document position). These queries never fail to evaluate. -/
def xPath (doc : Doc) (q : Query) : List Node :=
  (elementsOf doc.children).filter q.selects

/-- Go `first`. -/
def first (doc : Doc) (q : Query) : Bytes :=
  match xPath doc q with
  | [] => []
  | n :: _ => n.ResValue

/-- Go `any`. -/
def any (doc : Doc) (q : Query) : Bool :=
  (xPath doc q).length > 0

/-! ## Response parser -/

/-- Go `CliXMLHeader`. -/
def CliXMLHeader : Bytes := ascii "#< CLIXML\r\n"

/-- Go `CleanupStderr`; `ParseXML` stands for `xmltree.ParseXML`. -/
def CleanupStderr (ParseXML : Bytes → Parsed) (bs : Bytes) : Bytes :=
  if bs.length < CliXMLHeader.length ∨ ¬ (bs.take CliXMLHeader.length = CliXMLHeader) then bs
  else
    match ParseXML (bs.drop CliXMLHeader.length) with
    | .failed _ => bs
    | .tree _ (some _) => bs
    | .tree doc none =>
      let nodes := xPath doc .psS
      nodes.foldl
        (fun buffer node => buffer ++ ReplaceAll node.ResValue (ascii "_x000D__x000A_") (ascii "\n"))
        []

/-- Go `ParseSlurpOutputErrResponse`; the two writers are buffers, returned with what was appended.
Result: (stdout, stderr, finished, exitCode, err). The tree goes to `xPath` before `err` is
looked at, so a parse that returned no tree panics there, before anything is written. -/
def ParseSlurpOutputErrResponse (ParseXML : Bytes → Parsed) (response : Bytes)
    (stdout stderr : Bytes) : Outcome (Bytes × Bytes × Bool × Int × Option GoError) :=
  match ParseXML response with
  | .failed _ => .panicked
  | .tree doc err =>
    let stdouts := xPath doc (.stream (ascii "stdout"))
    let stdout := stdouts.foldl (fun w node => w ++ (DecodeString node.ResValue).1) stdout
    let stderrs := xPath doc (.stream (ascii "stderr"))
    let stderr := stderrs.foldl (fun w node => w ++ (DecodeString node.ResValue).1) stderr
    let ended := any doc .done
    let exitCode : Int :=
      if ended then
        if any doc .exitCode then (Atoi (first doc .exitCode)).1 else 0
      else 0
    let finished := if ended then ended else false
    .ret (stdout, stderr, finished, exitCode, err)

/-! ## Command engine -/

/-- Everything outside the engine. `Client.sendRequest` and the request constructors are
declared outside the given sources; a request is identified by its kind and answered by
count: `sendInput n`, `getOutput n` and `signal n` are the outcomes of the n-th request of
that kind, a response body or an error. The polling loop observes the outside world once per iteration `i`: `closeCalled i` says that the caller's
`Close` has closed the `cancel` channel by then, `ctxDone i` is `some e` when the context is
done with `ctx.Err() = e`, and `pickCancel i` is the branch `select` takes when both channels
are ready. -/
structure Env where
  sendInput : Nat → Option GoError
  getOutput : Nat → Except GoError Bytes
  signal : Nat → Option GoError
  ParseXML : Bytes → Parsed
  closeCalled : Nat → Bool
  ctxDone : Nat → Option GoError
  pickCancel : Nat → Bool

/-- Closes both output pipes with an error. -/
def Command.closeOutputs (c : Command) (e : Option GoError) : Command :=
  { c with Stderr := c.Stderr.CloseWithError e, Stdout := c.Stdout.CloseWithError e }

/-- Go `Command.Close`. -/
def Command.Close (env : Env) (c : Command) : Command × Option GoError :=
  match c.check with
  | some err => (c, some err)
  | none =>
    let c1 := { c with cancel := true }
    ({ c1 with signals := c1.signals + 1 }, env.signal c1.signals)

/-- Go `Command.slurpAllOutput`. Result: the state, then `finished` and the error. A panic of
the response parser goes through, after the request has been issued. -/
def Command.slurpAllOutput (env : Env) (c : Command) :
    Command × Outcome (Bool × Option GoError) :=
  match c.check with
  | some err => (c.closeOutputs (some err), .ret (true, some err))
  | none =>
    let answer := env.getOutput c.polls
    let c := { c with polls := c.polls + 1 }
    match answer with
    | .error err =>
      if Contains err.Error (ascii "OperationTimeout") ||
          Contains err.Error (ascii "timeout awaiting response headers") then
        (c, .ret (false, some err))
      else
        let c := if Contains err.Error (ascii "EOF") then { c with exitCode := 16001 } else c
        (c.closeOutputs (some err), .ret (true, some err))
    | .ok response =>
      match ParseSlurpOutputErrResponse env.ParseXML response [] [] with
      | .panicked => (c, .panicked)
      | .outOfFuel => (c, .outOfFuel)
      | .ret (_, _, _, _, some err) => (c.closeOutputs (some err), .ret (true, some err))
      | .ret (stdout, stderr, finished, exitCode, none) =>
        let c := if stdout.length > 0 then { c with Stdout := c.Stdout.Write stdout } else c
        let c := if stderr.length > 0 then { c with Stderr := c.Stderr.Write stderr } else c
        let c :=
          if finished then
            { c with exitCode := exitCode, Stderr := c.Stderr.Close, Stdout := c.Stdout.Close }
          else c
        (c, .ret (finished, none))

/-- The state as the loop sees it at the top of iteration `i`: the `cancel` channel is closed
if it was already, or if the caller's `Close` has closed it by now. -/
def Command.observe (env : Env) (i : Nat) (c : Command) : Command :=
  if env.closeCalled i then { c with cancel := true } else c

/-- The assignment `command.err = err`. -/
def Command.setErr (c : Command) (err : Option GoError) : Command := { c with err := err }

/-- The statement `close(command.done)`. -/
def Command.closeDone (c : Command) : Command := { c with done := true }

/-- Go `fetchOutput`, one unit of fuel per iteration: `i` numbers the iteration, `ctxArmed` is
false once `ctxDone` has been set to nil. A panic inside a poll ends the loop (and the
process) there. -/
def fetchOutput (env : Env) : Nat → Nat → Bool → Command → Command × Outcome Unit
  | 0, _, _, c => (c, .outOfFuel)
  | fuel + 1, i, ctxArmed, c =>
    let c := c.observe env i
    let ctxReady := ctxArmed && (env.ctxDone i).isSome
    if c.cancel && (!ctxReady || env.pickCancel i) then
      match c.slurpAllOutput env with
      | (c, .panicked) => (c, .panicked)
      | (c, .outOfFuel) => (c, .outOfFuel)
      | (c, .ret _) =>
        let c := c.closeOutputs (some .canceled)
        (c.closeDone, .ret ())
    else if ctxReady then
      let c := c.setErr (env.ctxDone i)
      let c := (c.Close env).1
      fetchOutput env fuel (i + 1) false c
    else
      match c.slurpAllOutput env with
      | (c, .panicked) => (c, .panicked)
      | (c, .outOfFuel) => (c, .outOfFuel)
      | (c, .ret (true, err)) => ((c.setErr err).closeDone, .ret ())
      | (c, .ret (false, _)) => fetchOutput env fuel (i + 1) ctxArmed c

/-- Go `Command.ExitCode`. -/
def Command.ExitCode (c : Command) : Int := c.exitCode

/-- Go `Command.Wait`, once `done` is closed. -/
def Command.Wait (c : Command) : Option GoError := c.err

/-- Go `Command.Result`: the polling loop runs to its return while the two copies drain the
pipes, so `outWriter` and `errWriter` end up with the bytes handed to the readers during the
call. The results are named in the source, so the bare `return` on error yields their zero
values. A panic in the polling goroutine ends the process, so `Result` does not return.
Result: the state, then (stdout, stderr, exitCode, err). -/
def Command.Result (env : Env) (fuel : Nat) (c : Command) :
    Command × Outcome (Bytes × Bytes × Int × Option GoError) :=
  let c0 := (commandWriter.Close env.sendInput c).1
  match fetchOutput env fuel 0 true c0 with
  | (c1, .panicked) => (c1, .panicked)
  | (c1, .outOfFuel) => (c1, .outOfFuel)
  | (c1, .ret _) =>
    let outWriter := c1.Stdout.data.drop c.Stdout.data.length
    let errWriter := c1.Stderr.data.drop c.Stderr.data.length
    let err := c1.Wait
    match err with
    | some e => (c1, .ret ([], [], 0, some e))
    | none => (c1, .ret (outWriter, CleanupStderr env.ParseXML errWriter, c1.exitCode, c1.err))

/-! ## Call sequences on the stdin endpoint -/

/-- A call on `Command.Stdin`. -/
inductive StdinCall where
  | Write (data : Bytes)
  | WriteClose (data : Bytes)
  | Close
  deriving DecidableEq, Repr

/-- State after one call and whether it returned. -/
def StdinCall.run (tr : Nat → Option GoError) (fuel : Nat) (c : Command) :
    StdinCall → Command × Bool
  | .Write data =>
    match commandWriter.Write tr fuel c data with
    | (c1, .ret _) => (c1, true)
    | (c1, _) => (c1, false)
  | .WriteClose data =>
    match commandWriter.WriteClose tr fuel c data with
    | (c1, .ret _) => (c1, true)
    | (c1, _) => (c1, false)
  | .Close => ((commandWriter.Close tr c).1, true)

/-- State after a sequence of calls made one after the other; a call that does not return
ends the sequence. -/
def runCalls (tr : Nat → Option GoError) (fuel : Nat) : Command → List StdinCall → Command
  | c, [] => c
  | c, call :: rest =>
    match call.run tr fuel c with
    | (c1, true) => runCalls tr fuel c1 rest
    | (c1, false) => c1


/-- The send-input requests issued so far that carry end-of-input true. -/
def Command.eofCalls (c : Command) : List SendInput := c.inputs.filter (fun x => x.eof)

/-- A command as `newCommand` makes it, used in the examples: shell `s`, id `c`, envelope
size 1002, so that the chunk limit is 2. -/
def demoCommand : Command :=
  newCommand ⟨ascii "s"⟩ (some ⟨⟨1002⟩⟩) (ascii "c")

/-- A transport whose second send-input request fails. -/
def failSecond : Nat → Option GoError :=
  fun i => if i = 1 then some (.transport (ascii "connection reset")) else none

/-! ## Reading of the claims about the parser -/

/-- An `rsp:Stream` element whose unqualified `Name` attribute is `name`. -/
def isStream (name : Bytes) (n : Node) : Bool :=
  n.named NS_WIN_SHELL "Stream" && n.hasAttr "Name" name

/-- An element that carries an unqualified `State` attribute equal to the Done URI. -/
def isDoneMarker (n : Node) : Bool := n.hasAttr "State" doneState

/-- An `rsp:ExitCode` element. -/
def isExitCode (n : Node) : Bool := n.named NS_WIN_SHELL "ExitCode"

/-- A PowerShell-namespace `S` element. -/
def isPsS (n : Node) : Bool := n.named NS_POWERSHELL "S"

/-- The token that stands for a line break inside CLIXML text. -/
def crlfToken : Bytes := ascii "_x000D__x000A_"

/-- A decimal digit. -/
def isDigit (c : Byte) : Bool := decide (48 ≤ c ∧ c ≤ 57)

/-- A non-empty run of decimal digits. -/
def isDecimalDigits (ds : Bytes) : Bool := !ds.isEmpty && ds.all isDigit

/-- The number a run of decimal digits denotes. -/
def decimalValue (ds : Bytes) : Nat := ds.foldl (fun acc c => acc * 10 + (c - 48)) 0

/-- A text without its leading sign, if it has one. -/
def unsignedPart : Bytes → Bytes
  | [] => []
  | c :: ds => if c = 43 ∨ c = 45 then ds else c :: ds

/-- A text that starts with a minus sign. -/
def isNegative : Bytes → Bool
  | [] => false
  | c :: _ => decide (c = 45)

/-- The decimal digits a text starts with, after its sign. -/
def leadingDigits (t : Bytes) : Bytes := (unsignedPart t).takeWhile isDigit

/-- The integer a text denotes, following the claim's words: decimal digits with an optional
leading sign; `none` when the text is not of that form. -/
def denotedInteger (t : Bytes) : Option Int :=
  if isDecimalDigits (unsignedPart t) then
    some (if isNegative t then -(decimalValue (unsignedPart t) : Int)
      else (decimalValue (unsignedPart t) : Int))
  else none

/-- The value `strconv.Atoi` returns, read off the text: if the digits the text starts with
(after its sign) overflow 64 bits, the bound of the sign, whatever follows them; otherwise,
if the text is a run of digits with an optional sign, its value brought into the range of a
signed 64-bit int; otherwise 0. -/
def atoiReading (t : Bytes) : Int :=
  if maxUint64 < decimalValue (leadingDigits t) then
    (if isNegative t then -(2 ^ 63) else 2 ^ 63 - 1)
  else if isDecimalDigits (unsignedPart t) then
    (if isNegative t = false ∧ decimalValue (unsignedPart t) ≥ 2 ^ 63 then 2 ^ 63 - 1
     else if isNegative t = true ∧ decimalValue (unsignedPart t) > 2 ^ 63 then -(2 ^ 63)
     else if isNegative t then -(decimalValue (unsignedPart t) : Int)
     else (decimalValue (unsignedPart t) : Int))
  else 0

/-- A receive response with the given children under `rsp:ReceiveResponse`. -/
def receiveResponse (children : List Node) : Doc :=
  ⟨[.elem "http://www.w3.org/2003/05/soap-envelope" "Envelope" []
      [.elem "http://www.w3.org/2003/05/soap-envelope" "Body" []
        [.elem NS_WIN_SHELL "ReceiveResponse" [] children]]]⟩

/-- An `rsp:Stream` element of the given stream with the given text. -/
def streamElem (name : String) (text : String) : Node :=
  .elem NS_WIN_SHELL "Stream" [⟨"", "Name", ascii name⟩, ⟨"", "CommandId", ascii "c"⟩]
    [.text (ascii text)]

/-- An `rsp:CommandState` element in state Done with the given exit code text. -/
def commandDone (exit : String) : Node :=
  .elem NS_WIN_SHELL "CommandState" [⟨"", "CommandId", ascii "c"⟩, ⟨"", "State", doneState⟩]
    [.elem NS_WIN_SHELL "ExitCode" [] [.text (ascii exit)]]

/-- Two stdout fragments, no Done marker. -/
def helloWorldDoc : Doc :=
  receiveResponse [streamElem "stdout" "aGVsbG8=", streamElem "stdout" "d29ybGQ="]

/-- Interleaved stdout and stderr fragments followed by the Done marker with exit code 3. -/
def doneDoc : Doc :=
  receiveResponse [streamElem "stdout" "b3V0", streamElem "stderr" "ZXJy",
    streamElem "stdout" "IQ==", commandDone "3"]

/-- The Done marker with an exit code text that denotes 2^63. -/
def hugeExitDoc : Doc := receiveResponse [commandDone "9223372036854775808"]

/-- The Done marker with an exit code text of twenty nines followed by a letter. -/
def overflowThenLetterDoc : Doc := receiveResponse [commandDone "99999999999999999999x"]

/-- A CLIXML document with two `S` text nodes. -/
def clixmlDoc : Doc :=
  ⟨[.elem NS_POWERSHELL "Objs" [⟨"", "Version", ascii "1.1.0.1"⟩]
      [.elem NS_POWERSHELL "S" [⟨"", "S", ascii "Error"⟩] [.text (ascii "err1_x000D__x000A_")],
       .elem NS_POWERSHELL "S" [⟨"", "S", ascii "Error"⟩] [.text (ascii "err2")]]]⟩

/-- A parser that yields the given document for every input, without error. -/
def parsesTo (doc : Doc) : Bytes → Parsed := fun _ => .tree doc none

/-! ## Reading of the claims about the engine -/

/-- The command after `n` further get-output requests that changed nothing else. -/
def Command.polled (c : Command) (n : Nat) : Command := { c with polls := c.polls + n }

/-- The tail of a successful poll: hand the decoded bytes to the pipes and, when finished,
record the exit code and close the pipes cleanly. -/
def Command.deliver (c : Command) (stdout stderr : Bytes) (finished : Bool) (exitCode : Int) :
    Command :=
  let c := if stdout.length > 0 then { c with Stdout := c.Stdout.Write stdout } else c
  let c := if stderr.length > 0 then { c with Stderr := c.Stderr.Write stderr } else c
  if finished then
    { c with exitCode := exitCode, Stderr := c.Stderr.Close, Stdout := c.Stdout.Close }
  else c

/-- The k-th get-output request is answered by a response that parses without error and
carries the Done marker: the remote side reports completion. -/
def reportsCompletion (env : Env) (k : Nat) : Bool :=
  match env.getOutput k with
  | .error _ => false
  | .ok response =>
    match ParseSlurpOutputErrResponse env.ParseXML response [] [] with
    | .ret (_, _, finished, _, err) => finished && err.isNone
    | _ => false

/-- An environment in which nobody calls `Close`, the context never expires and every
send-input and signal request succeeds. -/
def quietEnv (getOutput : Nat → Except GoError Bytes) (doc : Doc) : Env :=
  { sendInput := fun _ => none, getOutput := getOutput, signal := fun _ => none,
    ParseXML := parsesTo doc, closeCalled := fun _ => false, ctxDone := fun _ => none,
    pickCancel := fun _ => true }

/-- One stdout fragment (`out`), no Done marker. -/
def partialDoc : Doc := receiveResponse [streamElem "stdout" "b3V0"]

/-- The first poll delivers output, the second fails because the connection was torn down. -/
def tornDown : Nat → Except GoError Bytes :=
  fun k => if k = 0 then .ok (ascii "<body/>") else .error (.transport (ascii "unexpected EOF"))

/-- Every poll times out. -/
def alwaysTimeout : Nat → Except GoError Bytes :=
  fun _ => .error (.transport (ascii "wsman: OperationTimeout"))

/-- Polls are answered by a body from which the parser gets no tree (an empty body). -/
def noTreeEnv : Env :=
  { quietEnv (fun _ => .ok []) partialDoc with
    ParseXML := fun _ => .failed (.xml (ascii "EOF")) }

/-- The caller has called `Close` before the first iteration; polls are answered. -/
def closedEarly (doc : Doc) : Env :=
  { quietEnv (fun _ => .ok (ascii "<body/>")) doc with closeCalled := fun _ => true }

/-! ## Lemmas on the stdin loop -/

theorem logInputs_check (c : Command) (l : List SendInput) :
    (c.logInputs l).check = c.check := rfl

theorem logInputs_logInputs (c : Command) (l m : List SendInput) :
    (c.logInputs l).logInputs m = c.logInputs (l ++ m) := by
  simp [Command.logInputs]

theorem logInputs_nil (c : Command) : c.logInputs [] = c := by
  simp [Command.logInputs]

theorem sendInput_checked (tr : Nat → Option GoError) (c : Command) (data : Bytes) (eof : Bool)
    (h : c.check = none) :
    c.sendInput tr data eof = (c.logInputs [⟨data, eof⟩], tr c.inputs.length) := by
  simp [Command.sendInput, h, Command.logInputs]

theorem wrapInt64_of_range (x : Int) (h1 : -(2 ^ 63) ≤ x) (h2 : x < 2 ^ 63) :
    wrapInt64 x = x := by
  unfold wrapInt64
  omega

/-- The chunk length chosen by the loop when the limit is at least one. -/
theorem min_chunk (L : Int) (len : Nat) (hL1 : 1 ≤ L) :
    ∃ n : Nat, min L ((len + 1 : Nat) : Int) = (n : Int) ∧ 1 ≤ n ∧ n ≤ len + 1 ∧ (n : Int) ≤ L := by
  unfold min
  split
  · exact ⟨L.toNat, by omega, by omega, by omega, by omega⟩
  · exact ⟨len + 1, rfl, by omega, le_refl _, by omega⟩

/-- With a chunk limit of at least one and a transport that accepts every request from now on,
the loop sends `data` in order, in non-empty pieces within the limit, and counts all of it. -/
theorem writeLoop_all_sent (tr : Nat → Option GoError) (cl : Client) (L : Int)
    (hL : wrapInt64 (cl.Parameters.EnvelopeSize - 1000) = L) (hL1 : 1 ≤ L) :
    ∀ (fuel : Nat) (c : Command) (data : Bytes) (written : Int),
      data.length < fuel → c.client = some cl → c.check = none →
      (∀ i, c.inputs.length ≤ i → tr i = none) →
      ∃ chunks : List Bytes,
        commandWriter.writeLoop tr fuel c data written =
          (c.logInputs (chunks.map (fun d => ⟨d, false⟩)), .ret (written + data.length)) ∧
        chunks.flatten = data ∧
        ∀ d ∈ chunks, 0 < d.length ∧ (d.length : Int) ≤ L := by
  intro fuel
  induction fuel with
  | zero => intro c data written h; omega
  | succ fuel ih =>
    intro c data written hlen hcl hchk hok
    cases data with
    | nil =>
      refine ⟨[], ?_, rfl, by simp⟩
      simp [commandWriter.writeLoop, logInputs_nil]
    | cons b bs =>
      obtain ⟨n, hn, hn1, hn2, hn3⟩ := min_chunk L bs.length hL1
      have hl : ((b :: bs).drop n).length = bs.length + 1 - n := by
        rw [List.length_drop]; rfl
      have hdrop : ((b :: bs).drop n).length < fuel := by
        rw [hl]; simp only [List.length_cons] at hlen; omega
      obtain ⟨chunks, hrun, hcat, hbd⟩ :=
        ih (c.logInputs [⟨(b :: bs).take n, false⟩]) ((b :: bs).drop n)
          (written + n) hdrop hcl (by rw [logInputs_check]; exact hchk)
          (by intro i hi; apply hok; simp [Command.logInputs] at hi; omega)
      refine ⟨(b :: bs).take n :: chunks, ?_, ?_, ?_⟩
      · rw [commandWriter.writeLoop]
        simp only [List.length_cons, gt_iff_lt, Nat.zero_lt_succ, ↓reduceIte, hcl, hL]
        rw [hn]
        have hneg : ¬ ((n : Int) < 0) := by omega
        simp only [hneg, ↓reduceIte, Int.toNat_ofNat, sendInput_checked _ _ _ _ hchk,
          hok _ (le_refl _)]
        rw [hrun, logInputs_logInputs, hl]
        simp only [List.map_cons, List.singleton_append, Prod.mk.injEq, true_and,
          Outcome.ret.injEq]
        omega
      · simp [List.flatten_cons, hcat]
      · intro d hd
        rcases List.mem_cons.mp hd with rfl | hd
        · rw [List.length_take]
          simp only [List.length_cons]
          constructor
          · omega
          · omega
        · exact hbd d hd

/-- Whatever the transport does, the loop only logs requests with end-of-input false and
changes nothing else. -/
theorem writeLoop_logs (tr : Nat → Option GoError) :
    ∀ (fuel : Nat) (c : Command) (data : Bytes) (written : Int),
      ∃ l : List SendInput,
        (commandWriter.writeLoop tr fuel c data written).1 = c.logInputs l ∧
        ∀ x ∈ l, x.eof = false := by
  intro fuel
  induction fuel with
  | zero => intro c data written; exact ⟨[], by simp [commandWriter.writeLoop, logInputs_nil], by simp⟩
  | succ fuel ih =>
    intro c data written
    rw [commandWriter.writeLoop]
    split
    · split
      · exact ⟨[], by simp [logInputs_nil], by simp⟩
      · rename_i cl hcl
        simp only
        generalize min (wrapInt64 (cl.Parameters.EnvelopeSize - 1000)) ↑data.length = n
        split
        · exact ⟨[], by simp [logInputs_nil], by simp⟩
        · cases hchk : c.check with
          | some e =>
            refine ⟨[], ?_, by simp⟩
            simp [Command.sendInput, hchk, logInputs_nil]
          | none =>
            rw [sendInput_checked _ _ _ _ hchk]
            cases htr : tr c.inputs.length with
            | some e => exact ⟨[⟨data.take n.toNat, false⟩], rfl, by simp⟩
            | none =>
              simp only
              obtain ⟨l, hl, hf⟩ := ih (c.logInputs [⟨data.take n.toNat, false⟩])
                (data.drop n.toNat) (written + n)
              refine ⟨⟨data.take n.toNat, false⟩ :: l, ?_, ?_⟩
              · rw [hl, logInputs_logInputs]; rfl
              · intro x hx
                rcases List.mem_cons.mp hx with rfl | hx
                · rfl
                · exact hf x hx
    · exact ⟨[], by simp [logInputs_nil], by simp⟩

/-- Go `Write` only logs requests with end-of-input false and changes nothing else. -/
theorem Write_logs (tr : Nat → Option GoError) (fuel : Nat) (c : Command) (data : Bytes) :
    ∃ l : List SendInput,
      (commandWriter.Write tr fuel c data).1 = c.logInputs l ∧ ∀ x ∈ l, x.eof = false := by
  unfold commandWriter.Write
  split
  · exact ⟨[], by simp [logInputs_nil], by simp⟩
  · obtain ⟨l, hl, hf⟩ := writeLoop_logs tr fuel c data 0
    refine ⟨l, ?_, hf⟩
    simp only
    split <;> rename_i h <;> rw [h] at hl <;> exact hl

/-- On a closed endpoint `Write` returns at once. -/
theorem Write_closed (tr : Nat → Option GoError) (fuel : Nat) (c : Command) (data : Bytes)
    (h : c.stdinEof = true) :
    commandWriter.Write tr fuel c data = (c, .ret (0, some .ErrClosedPipe)) := by
  simp [commandWriter.Write, h]

/-- On a closed endpoint `Close` returns at once. -/
theorem Close_closed (tr : Nat → Option GoError) (c : Command) (h : c.stdinEof = true) :
    commandWriter.Close tr c = (c, some .ErrClosedPipe) := by
  simp [commandWriter.Close, h]

/-- Go `WriteClose` on any endpoint: nothing is sent and the closed-pipe error comes back. -/
theorem WriteClose_eq (tr : Nat → Option GoError) (fuel : Nat) (c : Command) (data : Bytes) :
    commandWriter.WriteClose tr fuel c data =
      ({ c with stdinEof := true }, .ret (0, some .ErrClosedPipe)) := by
  simp [commandWriter.WriteClose, commandWriter.Write]

/-- Once closed, the endpoint is left untouched by every sequence of calls. -/
theorem runCalls_closed (tr : Nat → Option GoError) (fuel : Nat) (calls : List StdinCall) :
    ∀ c : Command, c.stdinEof = true → runCalls tr fuel c calls = c := by
  induction calls with
  | nil => intro c _; rfl
  | cons call rest ih =>
    intro c h
    have hc : { c with stdinEof := true } = c := by
      cases c; simp_all
    cases call with
    | Write data => simp [runCalls, StdinCall.run, Write_closed tr fuel c data h, ih c h]
    | WriteClose data => simp [runCalls, StdinCall.run, WriteClose_eq, hc, ih c h]
    | Close => simp [runCalls, StdinCall.run, Close_closed tr c h, ih c h]

/-- Go `Close` on an open endpoint of a command that fails `check`: closed, nothing sent. -/
theorem Close_open_unchecked (tr : Nat → Option GoError) (c : Command) (e : GoError)
    (hopen : c.stdinEof = false) (hchk : c.check = some e) :
    commandWriter.Close tr c = ({ c with stdinEof := true }, some e) := by
  have h : ({ c with stdinEof := true } : Command).check = some e := hchk
  simp [commandWriter.Close, hopen, Command.sendInput, h]

/-- Go `Close` on an open endpoint of a well-formed command: closed, and one request with an
empty payload and end-of-input true is sent. -/
theorem Close_open_checked (tr : Nat → Option GoError) (c : Command)
    (hopen : c.stdinEof = false) (hchk : c.check = none) :
    commandWriter.Close tr c =
      (({ c with stdinEof := true } : Command).logInputs [⟨[], true⟩], tr c.inputs.length) := by
  have h : ({ c with stdinEof := true } : Command).check = none := hchk
  simp [commandWriter.Close, hopen, Command.sendInput, h, Command.logInputs]

/-- Go `Close` on an open endpoint leaves it closed. -/
theorem Close_open_closed (tr : Nat → Option GoError) (c : Command)
    (hopen : c.stdinEof = false) : (commandWriter.Close tr c).1.stdinEof = true := by
  cases hchk : c.check with
  | some e => rw [Close_open_unchecked tr c e hopen hchk]
  | none => rw [Close_open_checked tr c hopen hchk]; rfl

/-- From an open endpoint that has sent no end-of-input yet, every sequence of calls sends
end-of-input at most once, with an empty payload. -/
theorem runCalls_eofCalls (tr : Nat → Option GoError) (fuel : Nat) (calls : List StdinCall) :
    ∀ c : Command, c.stdinEof = false → c.eofCalls = [] →
      (runCalls tr fuel c calls).eofCalls.length ≤ 1 ∧
      ∀ x ∈ (runCalls tr fuel c calls).eofCalls, x.data = [] := by
  induction calls with
  | nil => intro c _ h; simp [runCalls, h]
  | cons call rest ih =>
    intro c hopen hnone
    cases call with
    | Write data =>
      obtain ⟨l, hl, hf⟩ := Write_logs tr fuel c data
      have h1 : (c.logInputs l).eofCalls = [] := by
        simp only [Command.eofCalls, Command.logInputs, List.filter_append]
        simp only [Command.eofCalls] at hnone
        rw [hnone, List.nil_append, List.filter_eq_nil_iff]
        intro x hx; simp [hf x hx]
      simp only [runCalls, StdinCall.run]
      rcases hw : commandWriter.Write tr fuel c data with ⟨c1, o⟩
      rw [hw] at hl
      simp only at hl
      subst hl
      cases o with
      | ret v => exact ih _ hopen h1
      | panicked => simp [h1]
      | outOfFuel => simp [h1]
    | WriteClose data =>
      simp only [runCalls, StdinCall.run, WriteClose_eq]
      rw [runCalls_closed tr fuel rest _ rfl]
      have : ({ c with stdinEof := true } : Command).eofCalls = [] := hnone
      simp [this]
    | Close =>
      simp only [runCalls, StdinCall.run]
      rw [runCalls_closed tr fuel rest _ (Close_open_closed tr c hopen)]
      simp only [Command.eofCalls] at hnone
      cases hchk : c.check with
      | some e =>
        rw [Close_open_unchecked tr c e hopen hchk]
        simp [Command.eofCalls, hnone]
      | none =>
        rw [Close_open_checked tr c hopen hchk]
        simp [Command.eofCalls, Command.logInputs, hnone, List.filter_append]

/-! ## The claims -/

/-- C1: chunking round trip of `commandWriter.Write`. On an open stdin endpoint of a well-formed
command whose envelope size leaves a chunk limit `EnvelopeSize - 1000` of at least one, with a
transport that accepts every send-input request, `Write(S)` terminates (any fuel above `len(S)`
is enough), returns `(len(S), nil)`, and changes the state only by logging send-input requests
`chunks`, all with end-of-input false, whose payloads concatenate in call order to `S`, each
non-empty and at most `EnvelopeSize - 1000` bytes long. -/
theorem C1_write_chunking_round_trip (tr : Nat → Option GoError) (fuel : Nat) (c : Command)
    (cl : Client) (S : Bytes)
    (hopen : c.stdinEof = false) (hchk : c.check = none) (hcl : c.client = some cl)
    (hlimit : 1 ≤ cl.Parameters.EnvelopeSize - 1000) (hint : cl.Parameters.EnvelopeSize < 2 ^ 63)
    (hok : ∀ i, c.inputs.length ≤ i → tr i = none) (hfuel : S.length < fuel) :
    ∃ chunks : List Bytes,
      commandWriter.Write tr fuel c S =
        (c.logInputs (chunks.map (fun d => ⟨d, false⟩)), .ret ((S.length : Int), none)) ∧
      chunks.flatten = S ∧
      ∀ d ∈ chunks, 0 < d.length ∧ (d.length : Int) ≤ cl.Parameters.EnvelopeSize - 1000 := by
  have hL : wrapInt64 (cl.Parameters.EnvelopeSize - 1000) = cl.Parameters.EnvelopeSize - 1000 :=
    wrapInt64_of_range _ (by omega) (by omega)
  obtain ⟨chunks, hrun, hcat, hbd⟩ :=
    writeLoop_all_sent tr cl _ hL hlimit fuel c S 0 hfuel hcl hchk hok
  refine ⟨chunks, ?_, hcat, hbd⟩
  simp [commandWriter.Write, hopen, hrun]

/-- C1 at a concrete input: three bytes through a chunk limit of two. -/
theorem C1_write_chunking_round_trip_witness :
    commandWriter.Write (fun _ => none) 4 demoCommand [104, 105, 33] =
        (demoCommand.logInputs [⟨[104, 105], false⟩, ⟨[33], false⟩], .ret (3, none)) ∧
    ∃ chunks : List Bytes,
      commandWriter.Write (fun _ => none) 4 demoCommand [104, 105, 33] =
        (demoCommand.logInputs (chunks.map (fun d => ⟨d, false⟩)), .ret (3, none)) ∧
      chunks.flatten = [104, 105, 33] ∧
      ∀ d ∈ chunks, 0 < d.length ∧ (d.length : Int) ≤ 1002 - 1000 :=
  ⟨by decide,
   C1_write_chunking_round_trip (fun _ => none) 4 demoCommand ⟨⟨1002⟩⟩ [104, 105, 33]
     rfl (by decide) rfl (by decide) (by decide) (fun _ _ => rfl) (by decide)⟩

/-- The error `Write` returns is never the transport's: it is one of the two `io` sentinels. -/
theorem Write_error_is_sentinel (tr : Nat → Option GoError) (fuel : Nat) (c c1 : Command)
    (data : Bytes) (n : Int) (e : GoError)
    (h : commandWriter.Write tr fuel c data = (c1, .ret (n, some e))) :
    e = .ErrClosedPipe ∨ e = .ErrShortWrite := by
  unfold commandWriter.Write at h
  split at h
  · simp only [Prod.mk.injEq, Outcome.ret.injEq, Option.some.injEq] at h
    exact Or.inl h.2.2.symm
  · simp only at h
    split at h
    · simp at h
    · simp at h
    · simp only [true_and, Prod.mk.injEq, Outcome.ret.injEq] at h
      obtain ⟨-, -, h3⟩ := h
      split at h3
      · simp only [Option.some.injEq] at h3
        exact Or.inr h3.symm
      · simp at h3

/-- C2, the code at the failing input: with a chunk limit of two, `Write` of three bytes
against a transport whose second send-input request fails with a transport error sends both
requests, stops, and returns two bytes written together with `io.ErrShortWrite`; the
transport error itself is lost, because the `err` tested after the loop is not the one the
loop body assigned. -/
theorem C2_write_loses_transport_error :
    failSecond 0 = none ∧
    failSecond 1 = some (.transport (ascii "connection reset")) ∧
    commandWriter.Write failSecond 4 demoCommand [104, 105, 33] =
      (demoCommand.logInputs [⟨[104, 105], false⟩, ⟨[33], false⟩],
        .ret (2, some .ErrShortWrite)) := by
  decide

/-- C3, the code on every input: `WriteClose(data)` sets the closed flag and then calls
`Write`, which refuses at once because the flag is set. No send-input request is issued for
any `data`, and the call returns `(0, io.ErrClosedPipe)`. -/
theorem C3_writeClose_writes_nothing (tr : Nat → Option GoError) (fuel : Nat) (c : Command)
    (data : Bytes) :
    commandWriter.WriteClose tr fuel c data =
      ({ c with stdinEof := true }, .ret (0, some .ErrClosedPipe)) ∧
    (commandWriter.WriteClose tr fuel c data).1.inputs = c.inputs := by
  rw [WriteClose_eq]
  exact ⟨rfl, rfl⟩

/-- C4: closed is absorbing for the stdin endpoint. Let `Close` be called on an open endpoint
(its send-input request may succeed or fail). After any further sequence `later` of `Write`,
`WriteClose` and `Close` calls the closed flag is still set and no request has been added;
in that state `Write(p)` returns `(0, io.ErrClosedPipe)` and `Close` returns
`io.ErrClosedPipe`, both leaving the state as it is. Moreover, from an open endpoint that has
not sent end-of-input, every sequence `calls` of such calls issues at most one send-input
request with end-of-input true, and that request has an empty payload. -/
theorem C4_closed_is_absorbing (tr : Nat → Option GoError) (fuel : Nat) (c : Command)
    (later calls : List StdinCall) (p : Bytes)
    (hopen : c.stdinEof = false) (hfresh : c.eofCalls = []) :
    (runCalls tr fuel (commandWriter.Close tr c).1 later).stdinEof = true ∧
    (runCalls tr fuel (commandWriter.Close tr c).1 later).inputs =
      (commandWriter.Close tr c).1.inputs ∧
    commandWriter.Write tr fuel (runCalls tr fuel (commandWriter.Close tr c).1 later) p =
      (runCalls tr fuel (commandWriter.Close tr c).1 later, .ret (0, some .ErrClosedPipe)) ∧
    commandWriter.Close tr (runCalls tr fuel (commandWriter.Close tr c).1 later) =
      (runCalls tr fuel (commandWriter.Close tr c).1 later, some .ErrClosedPipe) ∧
    (runCalls tr fuel c calls).eofCalls.length ≤ 1 ∧
    ∀ x ∈ (runCalls tr fuel c calls).eofCalls, x.data = [] := by
  have hc := Close_open_closed tr c hopen
  rw [runCalls_closed tr fuel later _ hc]
  exact ⟨hc, rfl, Write_closed tr fuel _ p hc, Close_closed tr _ hc,
    runCalls_eofCalls tr fuel calls c hopen hfresh⟩

/-- C4 at a concrete input: after `Close`, a `Write`, a `WriteClose` and a second `Close`
change nothing, an empty `Write` is refused, and the whole history holds exactly one
end-of-input request. -/
theorem C4_closed_is_absorbing_witness :
    (runCalls (fun _ => none) 4 demoCommand
      [.Write [104], .Close, .Write [105], .WriteClose [33], .Close]).eofCalls = [⟨[], true⟩] ∧
    commandWriter.Write (fun _ => none) 4
        (runCalls (fun _ => none) 4 (commandWriter.Close (fun _ => none) demoCommand).1
          [.Write [105], .WriteClose [33], .Close]) [] =
      (runCalls (fun _ => none) 4 (commandWriter.Close (fun _ => none) demoCommand).1
          [.Write [105], .WriteClose [33], .Close], .ret (0, some .ErrClosedPipe)) ∧
    (runCalls (fun _ => none) 4 demoCommand
      [.Write [104], .Close, .Write [105], .WriteClose [33], .Close]).eofCalls.length ≤ 1 :=
  have h := C4_closed_is_absorbing (fun _ => none) 4 demoCommand
    [.Write [105], .WriteClose [33], .Close]
    [.Write [104], .Close, .Write [105], .WriteClose [33], .Close] [] rfl (by decide)
  ⟨by decide, h.2.2.1, h.2.2.2.2.1⟩

/-- C9: `CleanupStderr` passes through, and is therefore idempotent on, every byte sequence
that does not begin with the 11 bytes of the CLIXML header, whatever the XML parser would do
(it is not consulted); this includes the sequences shorter than the header. -/
theorem C9_cleanup_passthrough (ParseXML : Bytes → Parsed) (x : Bytes)
    (h : ¬ CliXMLHeader <+: x) :
    CleanupStderr ParseXML x = x ∧
    CleanupStderr ParseXML (CleanupStderr ParseXML x) = CleanupStderr ParseXML x := by
  have hx : CleanupStderr ParseXML x = x := by
    unfold CleanupStderr
    split
    · rfl
    · rename_i hc
      exfalso
      apply h
      rw [List.prefix_iff_eq_take]
      by_contra hne
      exact hc (Or.inr (fun heq => hne heq.symm))
  exact ⟨hx, by rw [hx, hx]⟩

/-- C9 at concrete inputs: the empty sequence, a sequence shorter than the header, and a
sequence that differs from the header in its last byte only. -/
theorem C9_cleanup_passthrough_witness :
    CliXMLHeader.length = 11 ∧
    CleanupStderr (parsesTo ⟨[]⟩) [] = [] ∧
    CleanupStderr (parsesTo ⟨[]⟩) (ascii "#< CLI") = ascii "#< CLI" ∧
    CleanupStderr (parsesTo ⟨[]⟩) (ascii "#< CLIXML\r\r<Objs/>") =
      ascii "#< CLIXML\r\r<Objs/>" :=
  ⟨by decide,
   (C9_cleanup_passthrough (parsesTo ⟨[]⟩) [] (by decide)).1,
   (C9_cleanup_passthrough (parsesTo ⟨[]⟩) (ascii "#< CLI") (by decide)).1,
   (C9_cleanup_passthrough (parsesTo ⟨[]⟩) (ascii "#< CLIXML\r\r<Objs/>")
     (by decide)).1⟩

/-! ## Lemmas on the response parser -/

/-- Writing one piece per node to a buffer appends the pieces in order. -/
theorem foldl_write {α : Type} (f : α → Bytes) (l : List α) :
    ∀ w : Bytes, l.foldl (fun w x => w ++ f x) w = w ++ (l.map f).flatten := by
  induction l with
  | nil => intro w; simp
  | cons x xs ih => intro w; simp [List.foldl_cons, ih, List.append_assoc]

/-- A parse without error has a tree. -/
theorem parsed_of_err_none (p : Parsed) (h : p.err = none) : p = .tree p.doc none := by
  cases p with
  | tree doc err => simp only [Parsed.err] at h; rw [h]; rfl
  | failed err => simp [Parsed.err] at h

/-- What `ParseSlurpOutputErrResponse` returns when the parse yields a tree. -/
theorem parseSlurp_tree (ParseXML : Bytes → Parsed) (response stdout stderr : Bytes)
    (doc : Doc) (err : Option GoError) (h : ParseXML response = .tree doc err) :
    ParseSlurpOutputErrResponse ParseXML response stdout stderr =
      .ret (stdout ++ (((elementsOf doc.children).filter
              (isStream (ascii "stdout"))).map (fun n => (DecodeString n.ResValue).1)).flatten,
            stderr ++ (((elementsOf doc.children).filter
              (isStream (ascii "stderr"))).map (fun n => (DecodeString n.ResValue).1)).flatten,
            any doc .done,
            if any doc .done then
              if any doc .exitCode then (Atoi (first doc .exitCode)).1 else 0
            else 0,
            err) := by
  simp only [ParseSlurpOutputErrResponse, h, xPath, foldl_write]
  cases any doc .done <;> rfl

/-- C6: stream decoding of `ParseSlurpOutputErrResponse`. For every response that parses
without error, the function returns, the bytes appended to the stdout writer are the
standard-base64 decodings of the texts of the `rsp:Stream` elements with `Name='stdout'`,
concatenated in document order; the bytes appended to the stderr writer are the same for
`Name='stderr'`; nothing else reaches either writer, and no error is returned. -/
theorem C6_stream_decoding (ParseXML : Bytes → Parsed) (response stdout stderr : Bytes)
    (hwf : (ParseXML response).err = none) :
    ∃ (finished : Bool) (exitCode : Int),
      ParseSlurpOutputErrResponse ParseXML response stdout stderr =
        .ret (stdout ++ (((elementsOf (ParseXML response).doc.children).filter
                (isStream (ascii "stdout"))).map (fun n => (DecodeString n.ResValue).1)).flatten,
              stderr ++ (((elementsOf (ParseXML response).doc.children).filter
                (isStream (ascii "stderr"))).map (fun n => (DecodeString n.ResValue).1)).flatten,
              finished, exitCode, none) :=
  ⟨_, _, parseSlurp_tree ParseXML response stdout stderr _ none
    (parsed_of_err_none _ hwf)⟩

/-- C6 at concrete inputs: fragments `aGVsbG8=` and `d29ybGQ=` without a Done marker give
stdout `helloworld`, nothing on stderr, `finished = false` and no error; interleaved stdout and
stderr fragments are kept apart. -/
theorem C6_stream_decoding_witness :
    ParseSlurpOutputErrResponse (parsesTo helloWorldDoc) (ascii "<body/>") [] [] =
      .ret (ascii "helloworld", [], false, 0, none) ∧
    ParseSlurpOutputErrResponse (parsesTo doneDoc) (ascii "<body/>") [] [] =
      .ret (ascii "out!", ascii "err", true, 3, none) ∧
    ∃ (finished : Bool) (exitCode : Int),
      ParseSlurpOutputErrResponse (parsesTo helloWorldDoc) (ascii "<body/>") [] [] =
        .ret ([] ++ (((elementsOf (parsesTo helloWorldDoc (ascii "<body/>")).doc.children).filter
                (isStream (ascii "stdout"))).map (fun n => (DecodeString n.ResValue).1)).flatten,
              [] ++ (((elementsOf (parsesTo helloWorldDoc (ascii "<body/>")).doc.children).filter
                (isStream (ascii "stderr"))).map (fun n => (DecodeString n.ResValue).1)).flatten,
              finished, exitCode, none) :=
  ⟨by decide, by decide,
   C6_stream_decoding (parsesTo helloWorldDoc) (ascii "<body/>") [] [] rfl⟩

/-! ## Lemmas on `Atoi` -/

/-- Reading further digits never lowers the value read so far. -/
theorem foldl_digits_ge (l : Bytes) :
    ∀ a : Nat, a ≤ l.foldl (fun acc c => acc * 10 + (c - 48)) a := by
  induction l with
  | nil => intro a; exact le_refl a
  | cons c cs ih =>
    intro a
    simp only [List.foldl_cons]
    exact le_trans (by omega) (ih _)

/-- A run of `k` digits read after `a` stays below `(a + 1) * 10 ^ k`. -/
theorem foldl_digits_lt (l : Bytes) :
    ∀ a : Nat, (∀ c ∈ l, isDigit c = true) →
      l.foldl (fun acc c => acc * 10 + (c - 48)) a + 1 ≤ (a + 1) * 10 ^ l.length := by
  induction l with
  | nil => intro a _; simp
  | cons c cs ih =>
    intro a h
    have hc : isDigit c = true := h c (List.mem_cons_self _ _)
    simp only [isDigit, decide_eq_true_eq] at hc
    have hc' : @LE.le Nat _ 48 c ∧ @LE.le Nat _ c 57 := hc
    have h2 := ih (a * 10 + (c - 48)) (fun x hx => h x (List.mem_cons_of_mem _ hx))
    simp only [List.foldl_cons, List.length_cons]
    refine le_trans h2 ?_
    rw [pow_succ, Nat.mul_comm (10 ^ cs.length) 10, ← Nat.mul_assoc]
    exact Nat.mul_le_mul_right _ (by omega)

/-- The digit loop of `ParseUint`: the range result as soon as the leading digits overflow,
otherwise the value if all bytes are digits and a syntax error if not. -/
theorem parseUintLoop_eq (s : Bytes) :
    ∀ n : Nat, n ≤ maxUint64 →
      parseUintLoop s n =
        if maxUint64 < (s.takeWhile isDigit).foldl (fun acc c => acc * 10 + (c - 48)) n then
          (maxUint64, some .rangeErr)
        else if s.takeWhile isDigit = s then
          ((s.takeWhile isDigit).foldl (fun acc c => acc * 10 + (c - 48)) n, none)
        else (0, some .syntaxErr) := by
  induction s with
  | nil =>
    intro n hn
    have : ¬ maxUint64 < n := by omega
    simp [parseUintLoop, this]
  | cons c cs ih =>
    intro n hn
    simp only [maxUint64] at hn
    by_cases hc : 48 ≤ c ∧ c ≤ 57
    · have hd : isDigit c = true := by simp [isDigit, hc]
      have hc' : @LE.le Nat _ 48 c ∧ @LE.le Nat _ c 57 := hc
      simp only [parseUintLoop, hc, and_self, ↓reduceIte, List.takeWhile_cons, hd,
        List.foldl_cons, List.cons.injEq, true_and]
      have hge := foldl_digits_ge (cs.takeWhile isDigit) (n * 10 + (c - 48))
      by_cases hcut : n ≥ maxUint64 / 10 + 1
      · have : maxUint64 < n * 10 + (c - 48) := by
          simp only [maxUint64] at hcut ⊢; omega
        rw [if_pos hcut, if_pos (lt_of_lt_of_le this hge)]
      · rw [if_neg hcut]
        simp only [maxUint64] at hcut
        by_cases hov : maxUint64 < n * 10 + (c - 48)
        · have h1 : (n * 10 + (c - 48)) % 2 ^ 64 < n * 10 ∨
              (n * 10 + (c - 48)) % 2 ^ 64 > maxUint64 := by
            simp only [maxUint64] at hov ⊢; omega
          rw [if_pos h1, if_pos (lt_of_lt_of_le hov hge)]
        · have h1 : ¬ ((n * 10 + (c - 48)) % 2 ^ 64 < n * 10 ∨
              (n * 10 + (c - 48)) % 2 ^ 64 > maxUint64) := by
            simp only [maxUint64] at hov ⊢; omega
          have h2 : (n * 10 + (c - 48)) % 2 ^ 64 = n * 10 + (c - 48) := by
            simp only [maxUint64] at hov; omega
          rw [if_neg h1, h2, ih _ (by omega)]
    · have hd : isDigit c = false := by simp [isDigit, hc]
      have : ¬ maxUint64 < n := by simp only [maxUint64]; omega
      simp [parseUintLoop, hc, List.takeWhile_cons, hd, this]

/-- The fast path's digit loop accepts exactly the runs of digits. -/
theorem atoiFast_eq (s : Bytes) :
    ∀ n : Nat, atoiFast s n =
      if s.all isDigit then some (s.foldl (fun acc c => acc * 10 + (c - 48)) n) else none := by
  induction s with
  | nil => intro n; simp [atoiFast]
  | cons c cs ih =>
    intro n
    by_cases hc : 48 ≤ c ∧ c ≤ 57
    · have hd : isDigit c = true := by simp [isDigit, hc]
      simp [atoiFast, hc, hd, ih]
    · have hd : isDigit c = false := by simp [isDigit, hc]
      simp [atoiFast, hc, hd]

/-- Up to 18 digits denote a number below 10^18. -/
theorem decimalValue_lt (p : Bytes) (hd : ∀ c ∈ p, isDigit c = true) (hl : p.length ≤ 18) :
    decimalValue p < 1000000000000000000 := by
  have h1 : decimalValue p + 1 ≤ (0 + 1) * 10 ^ p.length := foldl_digits_lt p 0 hd
  have h2 : 10 ^ p.length ≤ 10 ^ 18 := Nat.pow_le_pow_right (by omega) hl
  rw [Nat.zero_add, Nat.one_mul] at h1
  have h3 : decimalValue p + 1 ≤ 10 ^ 18 := le_trans h1 h2
  have h4 : (10 : Nat) ^ 18 = 1000000000000000000 := by norm_num
  omega

/-- The leading digits of a short text denote a number below 10^18. -/
theorem leadingDigits_lt (body : Bytes) (hl : body.length ≤ 18) :
    decimalValue (body.takeWhile isDigit) < 1000000000000000000 :=
  decimalValue_lt _ (fun _ hc => List.mem_takeWhile_imp hc)
    (le_trans (List.takeWhile_prefix isDigit).length_le hl)

/-- A run of decimal digits is its own leading digits. -/
theorem isDecimalDigits_iff (body : Bytes) :
    isDecimalDigits body = true ↔ body ≠ [] ∧ body.takeWhile isDigit = body := by
  rw [List.takeWhile_eq_self_iff]
  cases body with
  | nil => simp [isDecimalDigits]
  | cons c cs => simp [isDecimalDigits]

/-- The result of `ParseUint` read off the text. -/
theorem ParseUint_eq (body : Bytes) :
    ParseUint body =
      if maxUint64 < decimalValue (body.takeWhile isDigit) then (maxUint64, some .rangeErr)
      else if isDecimalDigits body then (decimalValue body, none)
      else (0, some .syntaxErr) := by
  unfold ParseUint
  by_cases hb : body = []
  · subst hb
    simp [decimalValue, isDecimalDigits, maxUint64]
  · rw [if_neg hb, parseUintLoop_eq body 0 (Nat.zero_le _)]
    change (if maxUint64 < decimalValue (body.takeWhile isDigit) then _ else
      if body.takeWhile isDigit = body then (decimalValue (body.takeWhile isDigit), none)
      else _) = _
    by_cases h1 : maxUint64 < decimalValue (body.takeWhile isDigit)
    · rw [if_pos h1, if_pos h1]
    · rw [if_neg h1, if_neg h1]
      by_cases h2 : body.takeWhile isDigit = body
      · rw [if_pos h2, if_pos ((isDecimalDigits_iff body).mpr ⟨hb, h2⟩), h2]
      · rw [if_neg h2, if_neg (fun h => h2 ((isDecimalDigits_iff body).mp h).2)]

/-- The result of `ParseInt` read off the text. -/
theorem ParseInt_eq (t : Bytes) : (ParseInt t).1 = atoiReading t := by
  cases t with
  | nil => simp [ParseInt, atoiReading, leadingDigits, unsignedPart, decimalValue,
      isDecimalDigits, maxUint64]
  | cons c rest =>
    have hbody : (if c = 43 ∨ c = 45 then rest else c :: rest) = unsignedPart (c :: rest) := rfl
    simp only [ParseInt, hbody, ParseUint_eq, atoiReading, leadingDigits, isNegative]
    generalize unsignedPart (c :: rest) = body
    by_cases h1 : maxUint64 < decimalValue (body.takeWhile isDigit)
    · simp only [h1, ↓reduceIte]
      by_cases hneg : c = 45
      · simp [hneg, maxUint64]
      · simp [hneg, maxUint64]
    · simp only [h1, ↓reduceIte]
      by_cases h2 : isDecimalDigits body = true
      · simp only [h2, ↓reduceIte]
        by_cases hneg : c = 45
        · simp only [hneg]
          split_ifs
          all_goals first | rfl | omega | (simp_all; omega) | simp_all
        · simp only [hneg]
          split_ifs
          all_goals first | rfl | omega | (simp_all; omega) | simp_all
      · simp [h2]

/-- The value of `Atoi` read off the text, on both of its paths. -/
theorem Atoi_eq (t : Bytes) : (Atoi t).1 = atoiReading t := by
  unfold Atoi
  by_cases hlen : 0 < t.length ∧ t.length < 19
  · rw [if_pos hlen]
    cases t with
    | nil => simp at hlen
    | cons c rest =>
      have hbody : (if c = 45 ∨ c = 43 then rest else c :: rest) = unsignedPart (c :: rest) := by
        simp [unsignedPart, or_comm]
      have hl : (unsignedPart (c :: rest)).length ≤ 18 := by
        simp only [List.length_cons] at hlen
        show (if c = 43 ∨ c = 45 then rest else c :: rest).length ≤ 18
        split
        · omega
        · simp only [List.length_cons]; omega
      have hcond : ((c = 45 ∨ c = 43) ∧ (unsignedPart (c :: rest)).length < 1) =
          ((unsignedPart (c :: rest)).length < 1) := by
        apply propext
        refine ⟨And.right, fun h => ⟨?_, h⟩⟩
        by_contra hs
        have : unsignedPart (c :: rest) = c :: rest := by
          rw [← hbody, if_neg hs]
        rw [this] at h
        simp at h
      simp only [hbody, hcond, atoiReading, leadingDigits, isNegative]
      generalize unsignedPart (c :: rest) = body at hl ⊢
      have hlead := leadingDigits_lt body hl
      have h1 : ¬ maxUint64 < decimalValue (body.takeWhile isDigit) := by
        simp only [maxUint64]; omega
      rw [if_neg h1]
      by_cases hb : body.length < 1
      · have : body = [] := List.length_eq_zero.mp (by omega)
        subst this
        simp [isDecimalDigits]
      · rw [if_neg hb, atoiFast_eq]
        have hne : body ≠ [] := fun h => hb (by simp [h])
        by_cases hall : body.all isDigit = true
        · have hdd : isDecimalDigits body = true := by
            cases body with
            | nil => exact absurd rfl hne
            | cons x xs => simpa [isDecimalDigits] using hall
          have hv : decimalValue body < 1000000000000000000 :=
            decimalValue_lt body (List.all_eq_true.mp hall) hl
          have hfold : List.foldl (fun acc c => acc * 10 + (c - 48)) 0 body = decimalValue body :=
            rfl
          simp only [hall, ↓reduceIte, hdd, hfold]
          by_cases hneg : c = 45
          · simp only [hneg, decide_True]
            split_ifs
            all_goals first | rfl | omega
          · simp only [hneg, decide_False]
            split_ifs
            all_goals first | rfl | omega
        · have hdd : ¬ isDecimalDigits body = true := by
            intro h
            apply hall
            rw [List.all_eq_true]
            exact List.takeWhile_eq_self_iff.mp ((isDecimalDigits_iff body).mp h).2
          simp [hall, hdd]
  · rw [if_neg hlen]
    exact ParseInt_eq t

/-- On a text that denotes an integer `Atoi` gives the integer itself when it fits 64 bits,
otherwise the nearest bound. -/
theorem Atoi_integer (t : Bytes) (v : Int) (h : denotedInteger t = some v) :
    (Atoi t).1 =
      if 2 ^ 63 ≤ v then 2 ^ 63 - 1 else if v < -(2 ^ 63) then -(2 ^ 63) else v := by
  rw [Atoi_eq]
  unfold denotedInteger at h
  by_cases hdd : isDecimalDigits (unsignedPart t) = true
  · rw [if_pos hdd] at h
    simp only [Option.some.injEq] at h
    have hlead : leadingDigits t = unsignedPart t := ((isDecimalDigits_iff _).mp hdd).2
    simp only [atoiReading, hlead, hdd, ↓reduceIte]
    subst h
    simp only [maxUint64]
    generalize decimalValue (unsignedPart t) = V
    cases isNegative t
    · simp only [Bool.false_eq_true, ↓reduceIte, true_and, false_and]
      split_ifs
      all_goals first | rfl | omega
    · simp only [↓reduceIte, Bool.true_eq_false, false_and, true_and]
      split_ifs
      all_goals first | rfl | omega
  · rw [if_neg hdd] at h
    simp at h

/-- On a text that denotes no integer `Atoi` gives 0, unless the digits the text starts with
overflow 64 bits: then it gives the bound of the sign. -/
theorem Atoi_not_integer (t : Bytes) (h : denotedInteger t = none) :
    (Atoi t).1 =
      if decimalValue (leadingDigits t) < 2 ^ 64 then 0
      else if isNegative t then -(2 ^ 63) else 2 ^ 63 - 1 := by
  rw [Atoi_eq]
  unfold denotedInteger at h
  have hdd : isDecimalDigits (unsignedPart t) = false := by
    cases hd : isDecimalDigits (unsignedPart t) with
    | false => rfl
    | true => rw [if_pos hd] at h; simp at h
  simp only [atoiReading, hdd, maxUint64, Bool.false_eq_true, ↓reduceIte]
  split_ifs
  all_goals first | rfl | omega

/-- The Done query succeeds exactly when some element of the document is a Done marker. -/
theorem any_done_iff (doc : Doc) :
    any doc .done = true ↔ ∃ n ∈ elementsOf doc.children, isDoneMarker n = true := by
  unfold any xPath
  rw [decide_eq_true_iff, gt_iff_lt, List.length_pos, ne_eq, List.filter_eq_nil_iff]
  simp only [not_forall, Classical.not_imp, Bool.not_eq_true, Bool.not_eq_false]
  constructor
  · rintro ⟨n, hn, hp⟩
    exact ⟨n, hn, by simpa [Query.selects, isDoneMarker] using hp⟩
  · rintro ⟨n, hn, hp⟩
    exact ⟨n, hn, by simpa [Query.selects, isDoneMarker] using hp⟩

/-- C7 (as amended): completion and exit code of `ParseSlurpOutputErrResponse`. For every
response that parses without error the function returns without error, and `finished` is
true exactly when some element carries an unqualified `State` attribute equal to the Done
URI. When finished and an `rsp:ExitCode` element is present, with `n` the first one in
document order: if its text denotes an integer that fits a signed 64-bit int the exit code is
that integer; if it denotes an integer of 2^63 or more the exit code is 2^63 - 1, and below
-2^63 it is -2^63; if it denotes no integer the exit code is 0, unless the decimal digits
the text starts with (after an optional sign) have a value of 2^64 or more, in which case
it is -2^63 for a text with a minus sign and 2^63 - 1 otherwise. When not finished, or when
no `rsp:ExitCode` element is present, the exit code is 0. -/
theorem C7_completion_and_exit_code (ParseXML : Bytes → Parsed)
    (response stdout stderr : Bytes) (hwf : (ParseXML response).err = none) :
    ∃ (out errOut : Bytes) (finished : Bool) (exitCode : Int),
      ParseSlurpOutputErrResponse ParseXML response stdout stderr =
        .ret (out, errOut, finished, exitCode, none) ∧
      (finished = true ↔
        ∃ n ∈ elementsOf (ParseXML response).doc.children, isDoneMarker n = true) ∧
      (∀ n rest, finished = true →
        (elementsOf (ParseXML response).doc.children).filter isExitCode = n :: rest →
        (∀ v, denotedInteger n.ResValue = some v → -(2 ^ 63) ≤ v → v < 2 ^ 63 →
          exitCode = v) ∧
        (∀ v, denotedInteger n.ResValue = some v → 2 ^ 63 ≤ v → exitCode = 2 ^ 63 - 1) ∧
        (∀ v, denotedInteger n.ResValue = some v → v < -(2 ^ 63) → exitCode = -(2 ^ 63)) ∧
        (denotedInteger n.ResValue = none →
          decimalValue (leadingDigits n.ResValue) < 2 ^ 64 → exitCode = 0) ∧
        (denotedInteger n.ResValue = none →
          2 ^ 64 ≤ decimalValue (leadingDigits n.ResValue) →
          exitCode = if isNegative n.ResValue then -(2 ^ 63) else 2 ^ 63 - 1)) ∧
      (finished = false → exitCode = 0) ∧
      ((elementsOf (ParseXML response).doc.children).filter isExitCode = [] →
        exitCode = 0) := by
  have hx : ∀ doc : Doc, xPath doc .exitCode = (elementsOf doc.children).filter isExitCode :=
    fun _ => rfl
  refine ⟨_, _, _, _, parseSlurp_tree ParseXML response stdout stderr _ none
    (parsed_of_err_none _ hwf), any_done_iff _, ?_, ?_, ?_⟩
  · intro n rest hfin hex
    have hany : any (ParseXML response).doc .exitCode = true := by
      simp [any, hx, hex]
    rw [if_pos hfin, if_pos hany]
    have hfirst : first (ParseXML response).doc .exitCode = n.ResValue := by
      simp [first, hx, hex]
    rw [hfirst]
    refine ⟨?_, ?_, ?_, ?_, ?_⟩
    · intro v hv h1 h2
      rw [Atoi_integer _ v hv]
      split_ifs <;> omega
    · intro v hv h1
      rw [Atoi_integer _ v hv, if_pos h1]
    · intro v hv h1
      rw [Atoi_integer _ v hv]
      split_ifs <;> omega
    · intro hv h1
      rw [Atoi_not_integer _ hv, if_pos h1]
    · intro hv h1
      rw [Atoi_not_integer _ hv, if_neg (by omega)]
  · intro hfin
    rw [if_neg (by simp [hfin])]
  · intro hex
    have hany : any (ParseXML response).doc .exitCode = false := by
      simp [any, hx, hex]
    simp [hany]

/-- C7 (as amended) at concrete inputs: the Done marker with exit code text `3` gives
`finished = true` and exit code 3; without the marker `finished` is false and the code 0;
twenty nines followed by a letter give 2^63 - 1. -/
theorem C7_completion_and_exit_code_witness :
    ParseSlurpOutputErrResponse (parsesTo doneDoc) (ascii "<body/>") [] [] =
      .ret (ascii "out!", ascii "err", true, 3, none) ∧
    ParseSlurpOutputErrResponse (parsesTo helloWorldDoc) (ascii "<body/>") [] [] =
      .ret (ascii "helloworld", [], false, 0, none) ∧
    ParseSlurpOutputErrResponse (parsesTo overflowThenLetterDoc) (ascii "<body/>") [] [] =
      .ret ([], [], true, 9223372036854775807, none) ∧
    ∃ (out errOut : Bytes) (finished : Bool) (exitCode : Int),
      ParseSlurpOutputErrResponse (parsesTo doneDoc) (ascii "<body/>") [] [] =
        .ret (out, errOut, finished, exitCode, none) ∧
      (finished = true ↔
        ∃ n ∈ elementsOf (parsesTo doneDoc (ascii "<body/>")).doc.children,
          isDoneMarker n = true) :=
  ⟨by decide, by decide, by decide,
   (C7_completion_and_exit_code (parsesTo doneDoc) (ascii "<body/>") [] [] rfl).elim
     fun out h1 => h1.elim fun errOut h2 => h2.elim fun finished h3 => h3.elim
       fun exitCode h4 => ⟨out, errOut, finished, exitCode, h4.1, h4.2.1⟩⟩

/-- C7 as stated fails: with the Done marker and the exit code text `9223372036854775808`,
which denotes the integer 2^63, the returned exit code is 2^63 - 1. It is neither the integer
the text denotes nor 0, and no error is returned. -/
theorem C7_counterexample_exit_code_out_of_range :
    denotedInteger (ascii "9223372036854775808") = some 9223372036854775808 ∧
    ParseSlurpOutputErrResponse (parsesTo hugeExitDoc) (ascii "<body/>") [] [] =
      .ret ([], [], true, 9223372036854775807, none) := by
  decide

/-! ## Lemmas on `ReplaceAll` -/

/-- Passing over `k` bytes of a replaced match is the same as dropping them. -/
theorem replaceFrom_skip (old new : Bytes) :
    ∀ (k : Nat) (s : Bytes), replaceFrom old new k s = replaceFrom old new 0 (s.drop k) := by
  intro k
  induction k with
  | zero => intro s; rfl
  | succ k ih =>
    intro s
    cases s with
    | nil => simp [replaceFrom]
    | cons c cs => simp [replaceFrom, ih cs]

/-- A text without the token is returned as it is. -/
theorem replaceFrom_absent (old new : Bytes) :
    ∀ s : Bytes, Contains s old = false → replaceFrom old new 0 s = s := by
  intro s
  induction s with
  | nil => intro _; rfl
  | cons c cs ih =>
    intro h
    simp only [Contains, Bool.or_eq_false_iff] at h
    simp [replaceFrom, h.1, ih h.2]

/-- A run of bytes free of the replacement byte that starts the output also starts the input. -/
theorem prefix_of_replaced (old : Bytes) (b : Byte) :
    ∀ (t : Bytes), b ∉ t → ∀ s : Bytes,
      t.isPrefixOf (replaceFrom old [b] 0 s) = true → t.isPrefixOf s = true := by
  intro t
  induction t with
  | nil => intro _ s _; simp
  | cons a t ih =>
    intro hb s h
    have hab : a ≠ b := fun e => hb (by simp [e])
    have hbt : b ∉ t := fun e => hb (by simp [e])
    cases s with
    | nil => simp [replaceFrom] at h
    | cons c cs =>
      rw [replaceFrom] at h
      split at h
      · simp [hab] at h
      · simp only [List.isPrefixOf_cons₂, Bool.and_eq_true, beq_iff_eq] at h ⊢
        exact ⟨h.1, ih hbt cs h.2⟩

/-- After replacement by a byte that does not occur in the token, no occurrence of the token
is left. -/
theorem replaced_free (a : Byte) (old : Bytes) (b : Byte) (hb : b ∉ a :: old) :
    ∀ (n : Nat) (s : Bytes), s.length ≤ n →
      Contains (replaceFrom (a :: old) [b] 0 s) (a :: old) = false := by
  have hab : a ≠ b := fun e => hb (by simp [e])
  have hbt : b ∉ old := fun e => hb (by simp [e])
  intro n
  induction n with
  | zero =>
    intro s hs
    have : s = [] := List.length_eq_zero.mp (by omega)
    subst this
    simp [replaceFrom, Contains]
  | succ n ih =>
    intro s hs
    cases s with
    | nil => simp [replaceFrom, Contains]
    | cons c cs =>
      rw [replaceFrom]
      split
      · rw [replaceFrom_skip]
        simp only [List.singleton_append, Contains, List.isPrefixOf_cons₂, Bool.or_eq_false_iff,
          Bool.and_eq_false_imp, beq_iff_eq]
        refine ⟨fun e => absurd e hab, ih _ ?_⟩
        rw [List.length_drop]
        simp only [List.length_cons] at hs
        omega
      · rename_i hno
        simp only [Contains, Bool.or_eq_false_iff]
        refine ⟨?_, ih cs (by simp only [List.length_cons] at hs; omega)⟩
        by_contra hp
        apply hno
        simp only [Bool.not_eq_false, List.isPrefixOf_cons₂, Bool.and_eq_true, beq_iff_eq] at hp ⊢
        exact ⟨hp.1, prefix_of_replaced (a :: old) b old hbt cs hp.2⟩

/-- C8: `CleanupStderr` on CLIXML input. For every input made of the 11-byte header followed
by bytes that parse as XML without error, the result is the concatenation, in document order,
of the texts of the PowerShell-namespace `S` elements, each after `ReplaceAll` of the token
`_x000D__x000A_` by a line feed. That replacement leaves no occurrence of the token in any
text and returns a text without the token unchanged. -/
theorem C8_cleanup_clixml (ParseXML : Bytes → Parsed) (xml : Bytes)
    (hwf : (ParseXML xml).err = none) :
    CleanupStderr ParseXML (CliXMLHeader ++ xml) =
      (((elementsOf (ParseXML xml).doc.children).filter isPsS).map
        (fun n => ReplaceAll n.ResValue crlfToken (ascii "\n"))).flatten ∧
    (∀ t : Bytes, Contains (ReplaceAll t crlfToken (ascii "\n")) crlfToken = false) ∧
    (∀ t : Bytes, Contains t crlfToken = false → ReplaceAll t crlfToken (ascii "\n") = t) := by
  refine ⟨?_, ?_, ?_⟩
  · have hlen : CliXMLHeader.length = 11 := by decide
    have htake : (CliXMLHeader ++ xml).take 11 = CliXMLHeader := by
      rw [← hlen, List.take_left']
      rfl
    have hdrop : (CliXMLHeader ++ xml).drop 11 = xml := by
      rw [← hlen, List.drop_left']
      rfl
    have hnot : ¬ ((CliXMLHeader ++ xml).length < 11 ∨
        ¬ (CliXMLHeader ++ xml).take 11 = CliXMLHeader) := by
      rw [htake, List.length_append, hlen]
      simp
    unfold CleanupStderr
    rw [hlen, if_neg hnot, hdrop, parsed_of_err_none _ hwf]
    simp only [xPath, foldl_write]
    rfl
  · intro t
    exact replaced_free 95 (ascii "x000D__x000A_") 10 (by decide) t.length t (le_refl _)
  · intro t ht
    exact replaceFrom_absent crlfToken (ascii "\n") t ht

/-- C8 at a concrete input: the header followed by a document with the two `S` texts
`err1_x000D__x000A_` and `err2` gives `err1`, a line feed, `err2`. -/
theorem C8_cleanup_clixml_witness :
    CleanupStderr (parsesTo clixmlDoc) (CliXMLHeader ++ ascii "<Objs/>") = ascii "err1\nerr2" ∧
    CleanupStderr (parsesTo clixmlDoc) (CliXMLHeader ++ ascii "<Objs/>") =
      (((elementsOf (parsesTo clixmlDoc (ascii "<Objs/>")).doc.children).filter isPsS).map
        (fun n => ReplaceAll n.ResValue crlfToken (ascii "\n"))).flatten :=
  ⟨by decide, (C8_cleanup_clixml (parsesTo clixmlDoc) (ascii "<Objs/>") rfl).1⟩

/-! ## Lemmas on the polling loop -/

theorem polled_zero (c : Command) : c.polled 0 = c := by
  simp [Command.polled]

theorem polled_polled (c : Command) (a b : Nat) : (c.polled a).polled b = c.polled (a + b) := by
  simp [Command.polled, Nat.add_assoc]

/-- A poll answered by an operation timeout: nothing changes but the request count, and the
poll reports not finished. -/
theorem slurp_timeout (env : Env) (c : Command) (e : GoError) (hchk : c.check = none)
    (hres : env.getOutput c.polls = .error e)
    (ht : Contains e.Error (ascii "OperationTimeout") = true) :
    c.slurpAllOutput env = (c.polled 1, .ret (false, some e)) := by
  simp [Command.slurpAllOutput, hchk, hres, ht, Command.polled]

/-- An iteration in which neither channel is ready takes the default branch. -/
theorem fetchOutput_default (env : Env) (fuel i : Nat) (armed : Bool) (c : Command)
    (hcancel : c.cancel = false) (hclose : env.closeCalled i = false)
    (hctx : env.ctxDone i = none) :
    fetchOutput env (fuel + 1) i armed c =
      match c.slurpAllOutput env with
      | (c1, .panicked) => (c1, .panicked)
      | (c1, .outOfFuel) => (c1, .outOfFuel)
      | (c1, .ret (true, err)) => ((c1.setErr err).closeDone, .ret ())
      | (c1, .ret (false, _)) => fetchOutput env fuel (i + 1) armed c1 := by
  rw [fetchOutput]
  simp [Command.observe, hcancel, hclose, hctx]

/-- A poll on a command that fails `check`. -/
theorem slurp_unchecked (env : Env) (c : Command) (e : GoError) (hchk : c.check = some e) :
    c.slurpAllOutput env = (c.closeOutputs (some e), .ret (true, some e)) := by
  simp [Command.slurpAllOutput, hchk]

/-- A poll answered by a transport error. -/
theorem slurp_error (env : Env) (c : Command) (e : GoError) (hchk : c.check = none)
    (hres : env.getOutput c.polls = .error e) :
    c.slurpAllOutput env =
      if Contains e.Error (ascii "OperationTimeout") ||
          Contains e.Error (ascii "timeout awaiting response headers") then
        (c.polled 1, .ret (false, some e))
      else
        ((if Contains e.Error (ascii "EOF") then { c.polled 1 with exitCode := 16001 }
          else c.polled 1).closeOutputs (some e), .ret (true, some e)) := by
  simp [Command.slurpAllOutput, hchk, hres, Command.polled]

/-- A poll answered by a response. -/
theorem slurp_ok (env : Env) (c : Command) (response : Bytes) (hchk : c.check = none)
    (hres : env.getOutput c.polls = .ok response) :
    c.slurpAllOutput env =
      match ParseSlurpOutputErrResponse env.ParseXML response [] [] with
      | .panicked => (c.polled 1, .panicked)
      | .outOfFuel => (c.polled 1, .outOfFuel)
      | .ret (_, _, _, _, some err) =>
        ((c.polled 1).closeOutputs (some err), .ret (true, some err))
      | .ret (stdout, stderr, finished, exitCode, none) =>
        ((c.polled 1).deliver stdout stderr finished exitCode, .ret (finished, none)) := by
  simp only [Command.slurpAllOutput, hchk, hres]
  rfl

/-- Delivering output changes the pipes and the exit code only. -/
theorem deliver_keeps (c : Command) (stdout stderr : Bytes) (finished : Bool) (exitCode : Int) :
    (c.deliver stdout stderr finished exitCode).polls = c.polls ∧
    (c.deliver stdout stderr finished exitCode).err = c.err ∧
    (c.deliver stdout stderr finished exitCode).cancel = c.cancel ∧
    (c.deliver stdout stderr finished exitCode).check = c.check := by
  unfold Command.deliver
  split_ifs <;> exact ⟨rfl, rfl, rfl, rfl⟩

/-- A poll never touches the terminal error, the cancel channel or what `check` reads, and it
issues at most one request. -/
theorem slurp_keeps (env : Env) (c : Command) :
    (c.slurpAllOutput env).1.err = c.err ∧
    (c.slurpAllOutput env).1.cancel = c.cancel ∧
    (c.slurpAllOutput env).1.check = c.check ∧
    c.polls ≤ (c.slurpAllOutput env).1.polls ∧
    (c.slurpAllOutput env).1.polls ≤ c.polls + 1 := by
  have hpolled : ∀ x : Command, x.err = (c.polled 1).err → x.cancel = (c.polled 1).cancel →
      x.check = (c.polled 1).check → x.polls = (c.polled 1).polls →
      x.err = c.err ∧ x.cancel = c.cancel ∧ x.check = c.check ∧ c.polls ≤ x.polls ∧
        x.polls ≤ c.polls + 1 := by
    intro x h1 h2 h3 h4
    refine ⟨h1, h2, h3, ?_, ?_⟩ <;> rw [h4] <;> simp [Command.polled]
  obtain ⟨k, hchk⟩ : ∃ k, c.check = k := ⟨_, rfl⟩
  rcases k with _ | e
  · rcases hres : env.getOutput c.polls with e | response
    · rw [slurp_error env c e hchk hres]
      split_ifs
      · exact hpolled _ rfl rfl rfl rfl
      · exact hpolled _ rfl rfl rfl rfl
      · exact hpolled _ rfl rfl rfl rfl
    · rw [slurp_ok env c response hchk hres]
      rcases ParseSlurpOutputErrResponse env.ParseXML response [] [] with
        ⟨stdout, stderr, finished, exitCode, err⟩ | _ | _
      · cases err with
        | some e => exact hpolled _ rfl rfl rfl rfl
        | none =>
          have hk := deliver_keeps (c.polled 1) stdout stderr finished exitCode
          exact hpolled _ hk.2.1 hk.2.2.1 hk.2.2.2 hk.1
      · exact hpolled _ rfl rfl rfl rfl
      · exact hpolled _ rfl rfl rfl rfl
  · rw [slurp_unchecked env c e hchk]
    exact ⟨rfl, rfl, rfl, le_refl _, Nat.le_succ _⟩

/-- A poll that reports finished without error was answered by a completion report. -/
theorem slurp_finished_clean (env : Env) (c : Command)
    (h : (c.slurpAllOutput env).2 = .ret (true, none)) :
    (c.slurpAllOutput env).1.polls = c.polls + 1 ∧ reportsCompletion env c.polls = true := by
  cases hchk : c.check with
  | some e => rw [slurp_unchecked env c e hchk] at h; simp at h
  | none =>
    cases hres : env.getOutput c.polls with
    | error e =>
      rw [slurp_error env c e hchk hres] at h
      split_ifs at h <;> simp at h
    | ok response =>
      rw [slurp_ok env c response hchk hres] at h ⊢
      unfold reportsCompletion
      rw [hres]
      rcases hp : ParseSlurpOutputErrResponse env.ParseXML response [] [] with
        ⟨stdout, stderr, finished, exitCode, err⟩ | _ | _
      · rw [hp] at h
        cases err with
        | some e => simp at h
        | none =>
          simp only [Outcome.ret.injEq, Prod.mk.injEq, and_true] at h
          subst h
          exact ⟨by simp [(deliver_keeps _ _ _ _ _).1, Command.polled], by simp [hp]⟩
      · rw [hp] at h; simp at h
      · rw [hp] at h; simp at h

/-- A poll on a well-formed command issues exactly one get-output request. -/
theorem slurp_polls_checked (env : Env) (c : Command) (hchk : c.check = none) :
    (c.slurpAllOutput env).1.polls = c.polls + 1 := by
  cases hres : env.getOutput c.polls with
  | error e =>
    rw [slurp_error env c e hchk hres]
    split_ifs <;> simp [Command.polled, Command.closeOutputs]
  | ok response =>
    rw [slurp_ok env c response hchk hres]
    rcases ParseSlurpOutputErrResponse env.ParseXML response [] [] with
      ⟨stdout, stderr, finished, exitCode, err⟩ | _ | _
    · cases err with
      | some e => simp [Command.polled, Command.closeOutputs]
      | none => simp [(deliver_keeps _ _ _ _ _).1, Command.polled]
    · simp [Command.polled]
    · simp [Command.polled]

/-- Go `Command.Close` issues no get-output request and sets the cancel channel only. -/
theorem Close_keeps (env : Env) (c : Command) :
    (c.Close env).1.polls = c.polls ∧ (c.Close env).1.err = c.err := by
  unfold Command.Close
  split <;> simp

/-- Observing the caller's `Close` changes the cancel channel only. -/
theorem observe_keeps (env : Env) (i : Nat) (c : Command) :
    (c.observe env i).polls = c.polls ∧ (c.observe env i).err = c.err ∧
    (c.observe env i).check = c.check := by
  unfold Command.observe
  split <;> exact ⟨rfl, rfl, rfl⟩

/-- The polling loop never takes back a get-output request. -/
theorem fetchOutput_polls_le (env : Env) :
    ∀ (fuel i : Nat) (armed : Bool) (c : Command),
      c.polls ≤ (fetchOutput env fuel i armed c).1.polls := by
  intro fuel
  induction fuel with
  | zero => intro i armed c; simp [fetchOutput]
  | succ fuel ih =>
    intro i armed c
    have h := (slurp_keeps env (c.observe env i)).2.2.2.1
    rw [(observe_keeps env i c).1] at h
    rw [fetchOutput]
    simp only
    split
    · split <;> rename_i hs <;> rw [hs] at h <;> exact h
    · split
      · refine le_trans ?_ (ih _ _ _)
        rw [(Close_keeps env _).1]
        exact le_of_eq (observe_keeps env i c).1.symm
      · split <;> rename_i hs <;> rw [hs] at h
        · exact h
        · exact h
        · exact h
        · exact le_trans h (ih _ _ _)

/-- Through `n` operation timeouts in a row, with neither channel ready, the loop only counts
its requests and goes on. -/
theorem fetchOutput_timeouts (env : Env) :
    ∀ (n i : Nat) (c : Command), c.check = none → c.cancel = false →
      (∀ k, k < n → env.closeCalled (i + k) = false ∧ env.ctxDone (i + k) = none) →
      (∀ k, k < n → ∃ e, env.getOutput (c.polls + k) = .error e ∧
        Contains e.Error (ascii "OperationTimeout") = true) →
      ∀ (fuel : Nat) (armed : Bool),
        fetchOutput env (n + fuel) i armed c = fetchOutput env fuel (i + n) armed (c.polled n) := by
  intro n
  induction n with
  | zero => intro i c _ _ _ _ fuel armed; simp [polled_zero]
  | succ n ih =>
    intro i c hchk hcancel hquiet htimeout fuel armed
    obtain ⟨e, hres, ht⟩ := htimeout 0 (Nat.succ_pos n)
    have hq := hquiet 0 (Nat.succ_pos n)
    rw [show n + 1 + fuel = (n + fuel) + 1 by omega,
      fetchOutput_default env _ i armed c hcancel hq.1 hq.2,
      slurp_timeout env c e hchk hres ht]
    simp only
    rw [ih (i + 1) (c.polled 1) hchk hcancel
      (fun k hk => by
        have := hquiet (k + 1) (by omega)
        rwa [show i + 1 + k = i + (k + 1) by omega])
      (fun k hk => by
        have := htimeout (k + 1) (by omega)
        simpa [Command.polled, Nat.add_assoc, Nat.add_comm 1 k] using this)
      fuel armed, polled_polled]
    rw [show i + 1 + n = i + (n + 1) by omega, show 1 + n = n + 1 by omega]

/-- C10: operation timeouts never terminate a command. Take a well-formed command on which no
cancellation is requested and whose context does not expire during iterations `i` to `i + n`
of the polling loop, and let the next `n` get-output requests fail with transport errors whose
message contains `OperationTimeout`. Then each of these polls returns, reports not finished
and leaves the command as it was but for the count of requests (exit code, terminal error,
both output pipes and the `done` channel are unchanged, so nothing is closed, signalled or
surfaced); the loop after these `n` iterations is the loop started in that state; and it goes
on to issue at least one more get-output request. This holds for every `n`. -/
theorem C10_operation_timeouts_are_retried (env : Env) (c : Command) (n i fuel : Nat)
    (armed : Bool) (hchk : c.check = none) (hcancel : c.cancel = false)
    (hquiet : ∀ k, k ≤ n → env.closeCalled (i + k) = false ∧ env.ctxDone (i + k) = none)
    (htimeout : ∀ k, k < n → ∃ e, env.getOutput (c.polls + k) = .error e ∧
      Contains e.Error (ascii "OperationTimeout") = true) :
    (∀ k, k < n → ∃ e,
      (c.polled k).slurpAllOutput env = (c.polled (k + 1), .ret (false, some e))) ∧
    fetchOutput env (n + fuel) i armed c = fetchOutput env fuel (i + n) armed (c.polled n) ∧
    c.polls + n + 1 ≤ (fetchOutput env (n + (fuel + 1)) i armed c).1.polls := by
  have hrun := fetchOutput_timeouts env n i c hchk hcancel
    (fun k hk => hquiet k (Nat.le_of_lt hk)) htimeout
  refine ⟨?_, hrun fuel armed, ?_⟩
  · intro k hk
    obtain ⟨e, hres, ht⟩ := htimeout k hk
    refine ⟨e, ?_⟩
    rw [slurp_timeout env (c.polled k) e hchk hres ht, polled_polled]
  · rw [hrun (fuel + 1) armed,
      fetchOutput_default env fuel (i + n) armed (c.polled n) hcancel (hquiet n (le_refl n)).1
        (hquiet n (le_refl n)).2]
    have hp := slurp_polls_checked env (c.polled n) hchk
    rcases hs : (c.polled n).slurpAllOutput env with ⟨c1, ⟨finished, err⟩ | _ | _⟩
    · rw [hs] at hp
      simp only [Command.polled] at hp
      cases finished with
      | true =>
        simp only [Command.setErr, Command.closeDone]
        omega
      | false =>
        simp only
        have := fetchOutput_polls_le env fuel (i + n + 1) armed c1
        omega
    · rw [hs] at hp
      simp only [Command.polled] at hp
      simp only
      omega
    · rw [hs] at hp
      simp only [Command.polled] at hp
      simp only
      omega

/-- C10 at a concrete input: three operation timeouts in a row on a fresh command leave it
as it was but for the request count, and the loop, given fuel for a fourth iteration, polls
a fourth time. -/
theorem C10_operation_timeouts_are_retried_witness :
    fetchOutput (quietEnv alwaysTimeout partialDoc) 3 0 true demoCommand =
      (demoCommand.polled 3, .outOfFuel) ∧
    fetchOutput (quietEnv alwaysTimeout partialDoc) (3 + 0) 0 true demoCommand =
      fetchOutput (quietEnv alwaysTimeout partialDoc) 0 (0 + 3) true (demoCommand.polled 3) ∧
    demoCommand.polls + 3 + 1 ≤
      (fetchOutput (quietEnv alwaysTimeout partialDoc) (3 + (0 + 1)) 0 true demoCommand).1.polls :=
  ⟨by decide,
   (C10_operation_timeouts_are_retried (quietEnv alwaysTimeout partialDoc) demoCommand 3 0 0 true
      (by decide) rfl (fun _ _ => ⟨rfl, rfl⟩)
      (fun _ _ => ⟨.transport (ascii "wsman: OperationTimeout"), rfl, by decide⟩)).2⟩

/-- While the caller has not called `Close`, the loop sees the state as it is. -/
theorem observe_quiet (env : Env) (i : Nat) (c : Command) (h : env.closeCalled i = false) :
    c.observe env i = c := by
  simp [Command.observe, h]

/-- A poll answered by a body that yields no tree: the request is issued, the parser panics
and `Result` does not return. -/
theorem Result_without_tree :
    ParseSlurpOutputErrResponse noTreeEnv.ParseXML [] [] [] = .panicked ∧
    demoCommand.slurpAllOutput noTreeEnv = (demoCommand.polled 1, .panicked) ∧
    (demoCommand.Result noTreeEnv 5).2 = .panicked :=
  ⟨rfl, by decide, by decide⟩

/-- When the loop returns, the `done` channel is closed. -/
theorem fetchOutput_done (env : Env) :
    ∀ (fuel i : Nat) (armed : Bool) (c c1 : Command),
      fetchOutput env fuel i armed c = (c1, .ret ()) → c1.done = true := by
  intro fuel
  induction fuel with
  | zero => intro i armed c c1 h; simp [fetchOutput] at h
  | succ fuel ih =>
    intro i armed c c1 h
    rw [fetchOutput] at h
    simp only at h
    split at h
    · split at h
      · simp at h
      · simp at h
      · simp only [Prod.mk.injEq, and_true] at h
        rw [← h]; rfl
    · split at h
      · exact ih _ _ _ _ h
      · split at h
        · simp at h
        · simp at h
        · simp only [Prod.mk.injEq, and_true] at h
          rw [← h]; rfl
        · exact ih _ _ _ _ h

/-- If the caller never calls `Close`, the loop returns with a nil terminal error only after
a poll that was answered by a completion report. -/
theorem fetchOutput_clean_return (env : Env) (hquiet : ∀ j, env.closeCalled j = false) :
    ∀ (fuel i : Nat) (armed : Bool) (c c1 : Command),
      (c.cancel = true → c.err ≠ none) →
      fetchOutput env fuel i armed c = (c1, .ret ()) → c1.err = none →
      0 < c1.polls ∧ reportsCompletion env (c1.polls - 1) = true := by
  intro fuel
  induction fuel with
  | zero => intro i armed c c1 _ h; simp [fetchOutput] at h
  | succ fuel ih =>
    intro i armed c c1 hinv h herr
    rw [fetchOutput, observe_quiet env i c (hquiet i)] at h
    simp only at h
    split at h
    · rename_i hc
      simp only [Bool.and_eq_true] at hc
      split at h
      · simp at h
      · simp at h
      · rename_i c2 r hs
        simp only [Prod.mk.injEq, and_true] at h
        rw [← h] at herr
        have hk := (slurp_keeps env c).1
        rw [hs] at hk
        have : c2.err = none := herr
        rw [hk] at this
        exact absurd this (hinv hc.1)
    · split at h
      · rename_i hctx
        simp only [Bool.and_eq_true] at hctx
        refine ih _ _ _ c1 ?_ h herr
        intro _
        rw [(Close_keeps env _).2]
        simp only [Command.setErr]
        intro hnone
        rw [hnone] at hctx
        simp at hctx
      · split at h
        · simp at h
        · simp at h
        · rename_i c2 err hs
          simp only [Prod.mk.injEq, and_true] at h
          rw [← h] at herr ⊢
          have herr2 : err = none := herr
          have hfin := slurp_finished_clean env c (by rw [hs, herr2])
          rw [hs] at hfin
          simp only [Command.setErr, Command.closeDone]
          simp only at hfin
          rw [hfin.1]
          exact ⟨Nat.succ_pos _, by simpa using hfin.2⟩
        · rename_i c2 err hs
          have hk := slurp_keeps env c
          rw [hs] at hk
          refine ih _ _ _ c1 ?_ h herr
          intro hc
          rw [hk.1]
          exact hinv (by rw [← hk.2.1]; exact hc)

/-- Closing stdin does not touch the cancel channel. -/
theorem stdinClose_cancel (tr : Nat → Option GoError) (c : Command) :
    (commandWriter.Close tr c).1.cancel = c.cancel := by
  unfold commandWriter.Close
  split
  · rfl
  · simp only [Command.sendInput]
    split <;> rfl

/-- C5 (as amended): `Command.Result` when the polling loop has returned. If the terminal
error (what `Wait` returns) is non-nil, `Result` returns that error together with nil stdout,
nil stderr and exit code 0: the bytes drained from the two pipes and the recorded exit code
stay in the command and are not returned. If the terminal error is nil, `Result` returns the
drained stdout, `CleanupStderr` of the drained stderr, the recorded exit code and nil. And if
no cancellation is requested (the `cancel` channel is open and the caller never calls `Close`),
`Result` returns a nil error only when its last poll was answered by a completion report. In
every case the `done` channel is closed. -/
theorem C5_result_on_failure (env : Env) (fuel : Nat) (c : Command)
    (r : Bytes × Bytes × Int × Option GoError)
    (hret : (c.Result env fuel).2 = .ret r) :
    (c.Result env fuel).1.done = true ∧
    (∀ e, (c.Result env fuel).1.Wait = some e → r = ([], [], 0, some e)) ∧
    ((c.Result env fuel).1.Wait = none →
      r = ((c.Result env fuel).1.Stdout.data.drop c.Stdout.data.length,
           CleanupStderr env.ParseXML
             ((c.Result env fuel).1.Stderr.data.drop c.Stderr.data.length),
           (c.Result env fuel).1.ExitCode, none)) ∧
    (c.cancel = false → (∀ j, env.closeCalled j = false) → r.2.2.2 = none →
      0 < (c.Result env fuel).1.polls ∧
      reportsCompletion env ((c.Result env fuel).1.polls - 1) = true) := by
  rcases hf : fetchOutput env fuel 0 true (commandWriter.Close env.sendInput c).1 with ⟨c1, o⟩
  cases o with
  | panicked =>
    have hR : c.Result env fuel = (c1, .panicked) := by simp [Command.Result, hf]
    rw [hR] at hret
    simp at hret
  | outOfFuel =>
    have hR : c.Result env fuel = (c1, .outOfFuel) := by simp [Command.Result, hf]
    rw [hR] at hret
    simp at hret
  | ret u =>
    have hdone := fetchOutput_done env fuel 0 true _ c1 hf
    cases herr : c1.err with
    | some e =>
      have hR : c.Result env fuel = (c1, .ret ([], [], 0, some e)) := by
        simp [Command.Result, hf, Command.Wait, herr]
      rw [hR] at hret ⊢
      simp only [Outcome.ret.injEq] at hret
      subst hret
      refine ⟨hdone, ?_, ?_, ?_⟩
      · intro e2 he2
        simp only [Command.Wait, herr, Option.some.injEq] at he2
        rw [he2]
      · intro h
        simp [Command.Wait, herr] at h
      · intro _ _ h
        simp at h
    | none =>
      have hR : c.Result env fuel =
          (c1, .ret (c1.Stdout.data.drop c.Stdout.data.length,
            CleanupStderr env.ParseXML (c1.Stderr.data.drop c.Stderr.data.length),
            c1.exitCode, none)) := by
        simp [Command.Result, hf, Command.Wait, herr]
      rw [hR] at hret ⊢
      simp only [Outcome.ret.injEq] at hret
      subst hret
      refine ⟨hdone, ?_, ?_, ?_⟩
      · intro e2 he2
        simp [Command.Wait, herr] at he2
      · intro _
        rfl
      · intro hc hq _
        exact fetchOutput_clean_return env hq fuel 0 true _ c1
          (by rw [stdinClose_cancel, hc]; simp) hf herr

/-- C5 (as amended) at concrete inputs: a command whose second poll fails with an EOF
transport error, and a command that runs to a completion report. -/
theorem C5_result_on_failure_witness :
    (demoCommand.Result (quietEnv tornDown partialDoc) 5).2 =
      .ret ([], [], 0, some (.transport (ascii "unexpected EOF"))) ∧
    (demoCommand.Result (quietEnv (fun _ => .ok (ascii "<body/>")) doneDoc) 5).2 =
      .ret (ascii "out!", ascii "err", 3, none) ∧
    (0 < (demoCommand.Result (quietEnv (fun _ => .ok (ascii "<body/>")) doneDoc) 5).1.polls ∧
      reportsCompletion (quietEnv (fun _ => .ok (ascii "<body/>")) doneDoc)
        ((demoCommand.Result (quietEnv (fun _ => .ok (ascii "<body/>")) doneDoc) 5).1.polls - 1)
        = true) :=
  ⟨by decide, by decide,
   (C5_result_on_failure (quietEnv (fun _ => .ok (ascii "<body/>")) doneDoc) 5 demoCommand
      (ascii "out!", ascii "err", 3, none) (by decide)).2.2.2 rfl (fun _ => rfl) rfl⟩

/-- C5 as stated fails. A command whose first poll delivers the stdout bytes `out` and whose
second poll fails with an EOF transport error ends with that terminal error, with `out`
drained from stdout and with exit code 16001 recorded, yet `Result` returns nil stdout and
exit code 0 with the error. And a command on which the caller calls `Close`, with no
completion report from the remote side, makes `Result` return the partial output `out`
with a nil error. -/
theorem C5_counterexample_result_drops_output :
    (demoCommand.Result (quietEnv tornDown partialDoc) 5).2 =
      .ret ([], [], 0, some (.transport (ascii "unexpected EOF"))) ∧
    (demoCommand.Result (quietEnv tornDown partialDoc) 5).1.Stdout.data = ascii "out" ∧
    (demoCommand.Result (quietEnv tornDown partialDoc) 5).1.ExitCode = 16001 ∧
    (demoCommand.Result (quietEnv tornDown partialDoc) 5).1.Wait =
      some (.transport (ascii "unexpected EOF")) ∧
    (demoCommand.Result (closedEarly partialDoc) 5).2 = .ret (ascii "out", [], 0, none) ∧
    (demoCommand.Result (closedEarly partialDoc) 5).1.done = true ∧
    reportsCompletion (closedEarly partialDoc) 0 = false ∧
    (demoCommand.Result (closedEarly partialDoc) 5).1.polls = 1 := by
  decide

end Winrm
